import Mathlib

/-!
ServerStatus client: connection lifecycle.

A shallow embedding of `client/client.go` (`NewClient`, `Client.Conn`,
`Client.startRun`) together with theorems about the handshake, the frame
format, the reconnect policy and the tick period.

Go strings and byte slices are lists of bytes (`Nat` values below 256). The
network is an explicit script: what `net.DialTimeout`, `conn.Read` and
`conn.Write` return is data handed to the functions, and everything the code
does to the network is recorded in a trace.
-/

set_option maxRecDepth 100000

namespace ServerStatus

/-! ## Strings -/

/-- A Go `string` or `[]byte`: a sequence of bytes. `string(b)` and `[]byte(s)`
are the identity on this representation. -/
abbrev GoString := List Nat

/-- UTF-8 encoding of one code point, the encoding Go uses for source literals. -/
def utf8 (c : Char) : List Nat :=
  let v := c.toNat
  if v < 0x80 then [v]
  else if v < 0x800 then [0xC0 + v / 64, 0x80 + v % 64]
  else if v < 0x10000 then [0xE0 + v / 4096, 0x80 + v / 64 % 64, 0x80 + v % 64]
  else [0xF0 + v / 262144, 0x80 + v / 4096 % 64, 0x80 + v / 64 % 64, 0x80 + v % 64]

/-- The bytes of a Go string literal. -/
def str (s : String) : GoString := s.toList.flatMap utf8

/-- Go `strings.Contains(s, substr)`: `substr` occurs in `s` as a contiguous
run of bytes (the empty string occurs everywhere). -/
def Contains : GoString → GoString → Bool
  | [], substr => substr.isEmpty
  | c :: cs, substr => substr.isPrefixOf (c :: cs) || Contains cs substr

/-! ## Constants of the package -/

def DefaultServer : GoString := str "127.0.0.1"
def DefaultPort : GoString := str "35601"
def DefaultInterval : Nat := 3
def DefaultUsername : GoString := str "s01"
def DefaultPassword : GoString := str "USER_DEFAULT_PASSWORD"
def DefaultProtocol : GoString := str "ip4"

/-- The literal `"Authentication required"` matched by `Conn`. -/
def challenge : GoString := str "Authentication required"

/-- The literal `"You are connecting via"` matched by `Conn`. -/
def banner : GoString := str "You are connecting via"

/-- The literal `"IPv4"` matched by `Conn`. -/
def ipv4Mark : GoString := str "IPv4"

/-- The text of the error `Conn` returns when a `Read` fails:
`fmt.Sprintf("[连接]数据响应错误：%s，%s", err.Error(), string(recvData))`. -/
def readErrorText (e recvData : GoString) : GoString :=
  str "[连接]数据响应错误：" ++ e ++ str "，" ++ recvData

/-- The credential line `fmt.Sprintf("%s:%s\n", c.Username, c.Password)`. -/
def credentials (username password : GoString) : GoString :=
  username ++ str ":" ++ password ++ str "\n"

/-- Go `int64(x)`: two's complement wrap-around to 64 bits. -/
def int64 (x : Int) : Int := (x + 9223372036854775808) % 18446744073709551616 - 9223372036854775808

/-- Go `time.Second`, a `time.Duration` (signed 64-bit count of nanoseconds). -/
def Second : Int := 1000000000

/-- The constant `TimeOut = time.Second * 3`. -/
def TimeOut : Int := int64 (Second * 3)

/-- The argument of `time.Tick` in `startRun`:
`time.Second * time.Duration(c.Interval)`, where the conversion from `uint64`
and the product are both taken in `int64`. -/
def tickPeriod (interval : Nat) : Int := int64 (Second * int64 (interval : Int))

/-! ## The client -/

/-- The anonymous struct `baseInfo` of `Client`. -/
structure BaseInfo where
  checkIp : Nat
  timer : Nat
deriving DecidableEq, Repr

/-- The struct `Client`. `conn` is a `net.Conn` interface value: `none` is the
nil interface, `some k` the connection the `k`-th successful dial returned.
The fields `waitGroup`, `lastTime` and `pingTime` are not read or written by
`Conn`, by the body of `startRun` or by the part of `NewClient` that decides
the configuration, and are left out. -/
structure Client where
  Server : GoString
  Port : GoString
  Username : GoString
  Password : GoString
  Interval : Nat
  Protocol : GoString
  Debug : Bool
  conn : Option Nat
  baseInfo : BaseInfo
deriving DecidableEq, Repr

/-! ## The network as seen by one call of `Conn` -/

/-- One iteration of the read loop of `Conn` as the peer drives it: `bytes` is
what `conn.Read(recvData)` stores at the start of the buffer, `readErr` the
error it returns (if any), and `writeErr` the error `conn.Write` returns if
the iteration answers with the credentials. -/
structure Step where
  bytes : GoString
  readErr : Option GoString
  writeErr : Option GoString
deriving DecidableEq, Repr

/-- What the network offers to one call of `Conn`: the outcome of
`net.DialTimeout` and the iterations the peer drives afterwards. When the
steps are used up the next `Read` has not returned. -/
structure Dial where
  dialErr : Option GoString
  steps : List Step
deriving DecidableEq, Repr

/-- What `Conn` does to the network, in order. -/
inductive ConnEvent where
  | dial (addr : GoString) (err : Option GoString)
  | setReadDeadline
  | setWriteDeadline
  | read (bytes : GoString) (err : Option GoString)
  | write (data : GoString) (err : Option GoString)
  | log (msg : GoString)
deriving DecidableEq, Repr

/-- How a call stands at the end of the script: still inside a `Read`
(`blocked`), returned `nil`, or returned an error with the given text. -/
inductive Return where
  | blocked
  | nil
  | err (msg : GoString)
deriving DecidableEq, Repr

/-- `conn.Read(recvData)` on the buffer: the bytes delivered overwrite the
start of the buffer, the rest of the buffer keeps its content, and the buffer
keeps its length (a `Read` stores at most `len(recvData)` bytes). -/
def readInto (recvData bytes : GoString) : GoString :=
  (bytes ++ recvData.drop bytes.length).take recvData.length

/-- The state of the `for` loop of `Conn` when the script ends. -/
structure Loop where
  ret : Return
  client : Client
  recvData : GoString
  trace : List ConnEvent
deriving DecidableEq, Repr

/-- The `for` loop of `Conn` (lines 98-126), run against the steps of the
peer. `Return.nil` stands for leaving the loop through `break`. -/
def connLoop (c : Client) : List Step → GoString → Loop
  | [], recvData => ⟨.blocked, c, recvData, [.setReadDeadline, .setWriteDeadline]⟩
  | st :: rest, recvData =>
    let buf := readInto recvData st.bytes
    let pre : List ConnEvent := [.setReadDeadline, .setWriteDeadline, .read st.bytes st.readErr]
    match st.readErr with
    | some e => ⟨.err (readErrorText e buf), c, buf, pre⟩
    | none =>
      if Contains buf challenge then
        let data := credentials c.Username c.Password
        match st.writeErr with
        | some e => ⟨.err (str "[连接]数据发送失败：" ++ e), c, buf, pre ++ [.write data (some e)]⟩
        | none =>
          let r := connLoop c rest buf
          { r with trace := pre ++ .write data none :: r.trace }
      else if Contains buf banner then
        if !Contains buf ipv4Mark then
          ⟨.nil, { c with baseInfo := { c.baseInfo with checkIp := 4 } }, buf, pre⟩
        else
          ⟨.nil, { c with baseInfo := { c.baseInfo with checkIp := 6 } }, buf, pre⟩
      else
        let r := connLoop c rest buf
        { r with trace := pre ++ r.trace }

/-- The process as far as the connection lifecycle goes: the client, the
connections `Close` has been called on, and the handle the next successful
dial returns. -/
structure State where
  client : Client
  closed : List Nat
  nextConn : Nat
deriving DecidableEq, Repr

/-- The outcome of one call of `Conn`. -/
structure ConnResult where
  ret : Return
  state : State
  recvData : GoString
  trace : List ConnEvent
deriving DecidableEq, Repr

/-- The method `Client.Conn` (lines 88-133). -/
def Conn (s : State) (net : Dial) : ConnResult :=
  let recvData : GoString := List.replicate 128 0
  let addr := s.client.Server ++ str ":" ++ s.client.Port
  match net.dialErr with
  | some e => ⟨.err (str "[连接]建立失败：" ++ e), s, recvData, [.dial addr (some e)]⟩
  | none =>
    let conn := s.nextConn
    let r := connLoop s.client net.steps recvData
    match r.ret with
    | .nil =>
      ⟨.nil, { s with client := { r.client with conn := some conn }, nextConn := s.nextConn + 1 },
        r.recvData, .dial addr none :: r.trace ++ [.log (str "服务器连接成功")]⟩
    | ret =>
      ⟨ret, { s with client := r.client, nextConn := s.nextConn + 1 },
        r.recvData, .dial addr none :: r.trace⟩

/-! ## The reporting loop -/

/-- What the body of the loop of `startRun` does, in order. A call of `Conn`
is one event that carries the trace and the result of that call, so that the
writes of the loop and the writes of the handshake stay apart. `crash` is the
run-time failure of a method call on a nil `net.Conn`. -/
inductive LoopEvent where
  | log (msg : GoString)
  | setWriteDeadline (conn : Nat)
  | write (conn : Nat) (data : GoString) (err : Option GoString)
  | close (conn : Nat)
  | connCall (trace : List ConnEvent) (ret : Return)
  | crash
deriving DecidableEq, Repr

/-- What the environment supplies to one tick: the rendering of the elapsed
time (debug log only), the outcome of `json.Marshal(update)` (error text or
body), the error `c.conn.Write` returns (which may depend on whether `Close`
has been called on the connection), and the network as `Conn` finds it if the
tick reconnects. The snapshot `c.getUpdateInfo()` gathers is used for nothing
but the argument of `json.Marshal`, so only that outcome is kept. -/
structure Tick where
  elapsed : GoString
  marshal : Except GoString GoString
  write : Bool → Option GoString
  redial : Dial

/-- The outcome of one tick: `returned` tells whether the body reached its
end, so that the loop goes on to wait for the next tick. -/
structure TickResult where
  state : State
  events : List LoopEvent
  returned : Bool

/-- The body of the `for range time.Tick(...)` loop of `startRun`
(lines 61-85). The variable `data` is declared inside the body. -/
def tick (t : Tick) (s : State) : TickResult :=
  let dbg : List LoopEvent :=
    if s.client.Debug then [.log (str "获取耗时：" ++ t.elapsed)] else []
  let data := str "update "
  match t.marshal with
  | .error e => ⟨s, dbg ++ [.log e], true⟩
  | .ok jsonByte =>
    match s.client.conn with
    | none => ⟨s, dbg ++ [.crash], false⟩
    | some conn =>
      let data := data ++ jsonByte
      let data := data ++ str "\n"
      match t.write (decide (conn ∈ s.closed)) with
      | some e =>
        let s1 := { s with closed := conn :: s.closed }
        let r := Conn s1 t.redial
        let evs : List LoopEvent := dbg ++
          [.setWriteDeadline conn, .write conn data (some e), .close conn,
           .log (str "[准备重连]发送失败：" ++ e ++ str "\n"), .connCall r.trace r.ret]
        match r.ret with
        | .err msg => ⟨r.state, evs ++ [.log (str "服务器重连失败：" ++ msg ++ str "\n")], true⟩
        | .nil => ⟨r.state, evs, true⟩
        | .blocked => ⟨r.state, evs, false⟩
      | none =>
        ⟨s, dbg ++ [.setWriteDeadline conn, .write conn data none,
          .log (str "发送成功：" ++ str (toString data.length) ++ str "Byte\n")], true⟩

/-- The loop of `startRun` over the ticks that fire: the events of each tick
whose body was entered, and the state at the end. A body that does not reach
its end (blocked in the handshake, or crashed) ends the run. -/
def runTicks : List Tick → State → List (List LoopEvent) × State
  | [], s => ([], s)
  | t :: ts, s =>
    let r := tick t s
    if r.returned then
      let rest := runTicks ts r.state
      (r.events :: rest.1, rest.2)
    else ([r.events], r.state)

/-- The method `Client.startRun` (lines 54-87) against the ticks the clock
would deliver. `time.Tick(d)` returns a nil channel when `d <= 0`, and a
`range` over a nil channel never receives. The deferred `Close` runs only
when the function returns, which the loop never does. -/
def startRun (ticks : List Tick) (s : State) : List (List LoopEvent) × State :=
  if tickPeriod s.client.Interval ≤ 0 then ([], s) else runTicks ticks s

/-! ## Construction -/

/-- The two errors of `strconv.ParseUint`. -/
inductive NumError where
  | errSyntax
  | errRange
deriving DecidableEq, Repr

/-- The helper `lower` of `strconv`: `c | ('x' - 'X')`. -/
def lower (c : Nat) : Nat := c ||| 32

/-- The digit loop of `strconv.ParseUint(s, 10, 64)` of the Go standard
library, with `n` the `uint64` accumulator: a byte that is no digit or letter,
or a digit not below the base, is a syntax error (underscores are digits
separators for base 0 only); `n >= cutoff` with `cutoff = maxUint64/10 + 1`,
or a wrapped sum, is a range error. -/
def parseUintLoop : List Nat → Nat → Except NumError Nat
  | [], n => .ok n
  | c :: cs, n =>
    let d? : Option Nat :=
      if 48 ≤ c ∧ c ≤ 57 then some (c - 48)
      else if 97 ≤ lower c ∧ lower c ≤ 122 then some (lower c - 97 + 10)
      else none
    match d? with
    | none => .error .errSyntax
    | some d =>
      if d ≥ 10 then .error .errSyntax
      else if n ≥ 18446744073709551615 / 10 + 1 then .error .errRange
      else
        let n10 := n * 10 % 18446744073709551616
        let n1 := (n10 + d) % 18446744073709551616
        if n1 < n10 ∨ n1 > 18446744073709551615 then .error .errRange
        else parseUintLoop cs n1

/-- Go `strconv.ParseUint(s, 10, 64)`: the empty string is a syntax error. -/
def ParseUint (s : GoString) : Except NumError Nat :=
  if s = [] then .error .errSyntax else parseUintLoop s 0

/-- What `NewClient` returns: the pointer (nil on failure) and the error,
with the call of `Conn` it made. -/
structure NewClientResult where
  client : Option Client
  ret : Return
  run : ConnResult

/-- The function `NewClient` (lines 185-225), in a process that has dialled
nothing yet. -/
def NewClient (server username password port interval : GoString) (debug : Bool)
    (net : Dial) : NewClientResult :=
  let c : Client :=
    { Server := DefaultServer, Username := DefaultUsername, Password := DefaultPassword,
      Port := DefaultPort, Interval := DefaultInterval, Protocol := [], Debug := false,
      conn := none, baseInfo := ⟨0, 0⟩ }
  let c := if server ≠ [] then { c with Server := server } else c
  let c := if username ≠ [] then { c with Username := username } else c
  let c := if password ≠ [] then { c with Password := password } else c
  let c := if port ≠ [] then { c with Port := port } else c
  let c := match ParseUint interval with
    | .ok i => if i ≠ 0 then { c with Interval := i } else c
    | .error _ => c
  let c := { c with Debug := debug }
  let c := { c with Protocol := DefaultProtocol }
  let r := Conn ⟨c, [], 0⟩ net
  match r.ret with
  | .nil => ⟨some r.state.client, .nil, r⟩
  | ret => ⟨none, ret, r⟩

/-! ## Reading traces -/

/-- A `Conn` event that reports an error. -/
def ConnEvent.failed : ConnEvent → Bool
  | .dial _ (some _) => true
  | .read _ (some _) => true
  | .write _ (some _) => true
  | _ => false

/-- The data of the writes of a `Conn` trace, in order. -/
def connWrites : List ConnEvent → List GoString
  | [] => []
  | .write data _ :: evs => data :: connWrites evs
  | _ :: evs => connWrites evs

/-- The bytes delivered by the reads of a `Conn` trace, in order. -/
def connReads : List ConnEvent → List GoString
  | [] => []
  | .read bytes _ :: evs => bytes :: connReads evs
  | _ :: evs => connReads evs

/-- The content of a buffer after the given deliveries, one `Read` each. -/
def bufferAfter (recvData : GoString) (reads : List GoString) : GoString :=
  reads.foldl readInto recvData

/-- A log line (or the crash marker): an event of the loop that does not act
on a connection. -/
def LoopEvent.isLog : LoopEvent → Bool
  | .log _ => true
  | .crash => true
  | _ => false

/-- A `Write` of the loop. -/
def LoopEvent.isWrite : LoopEvent → Bool
  | .write _ _ _ => true
  | _ => false

/-- A `Write` of the loop that returned an error. -/
def LoopEvent.isFailedWrite : LoopEvent → Bool
  | .write _ _ (some _) => true
  | _ => false

/-- A call of `Conn` made by the loop. -/
def LoopEvent.isConnCall : LoopEvent → Bool
  | .connCall _ _ => true
  | _ => false

/-- What a tick does to connections: its events without the log lines, that
is its `SetWriteDeadline`, `Write`, `Close` and `Conn` calls in order. -/
def netActions (evs : List LoopEvent) : List LoopEvent :=
  evs.filter (fun ev => !ev.isLog)

/-- The number of `Conn` calls in a run of ticks. -/
def connAttempts (run : List (List LoopEvent)) : Nat :=
  (run.map (fun evs => evs.countP LoopEvent.isConnCall)).sum

/-- The number of ticks of a run whose `Write` failed. -/
def failedSends (run : List (List LoopEvent)) : Nat :=
  run.countP (fun evs => evs.any LoopEvent.isFailedWrite)

/-- What one tick does to the connection, read off its events. -/
def TickPolicy (evs : List LoopEvent) : Prop :=
  (∀ k d e, LoopEvent.write k d (some e) ∈ evs →
    ∃ tr ret, netActions evs =
      [.setWriteDeadline k, .write k d (some e), .close k, .connCall tr ret]) ∧
  (∀ k d, LoopEvent.write k d none ∈ evs →
    netActions evs = [.setWriteDeadline k, .write k d none]) ∧
  evs.countP LoopEvent.isConnCall = if evs.any LoopEvent.isFailedWrite = true then 1 else 0

/-- From position `n` on the buffer holds zero bytes only. -/
def ZeroFrom (n : Nat) (buf : GoString) : Prop :=
  buf.drop n = List.replicate (buf.length - n) 0

/-- The peer of the credential exchange: it sends each of the given challenge
messages, one `Read` each, then the final message; no read and no write
fails. -/
def peerOf (challenges : List GoString) (final : GoString) : Dial :=
  ⟨none, challenges.map (fun m => ⟨m, none, none⟩) ++ [⟨final, none, none⟩]⟩

/-- The number a string of decimal digits denotes. -/
def decimal (s : GoString) : Nat := s.foldl (fun n c => n * 10 + (c - 48)) 0

/-- The string is not empty and consists of the bytes `0` to `9` only. -/
def isDecimal (s : GoString) : Bool := !s.isEmpty && s.all (fun c => decide (48 ≤ c ∧ c ≤ 57))

/-- The configuration `NewClient` has assembled when it calls `Conn`. -/
def newClientConfig (server username password port interval : GoString) (debug : Bool) :
    Client :=
  { Server := if server = [] then DefaultServer else server,
    Username := if username = [] then DefaultUsername else username,
    Password := if password = [] then DefaultPassword else password,
    Port := if port = [] then DefaultPort else port,
    Interval := match ParseUint interval with
      | .ok i => if i = 0 then DefaultInterval else i
      | .error _ => DefaultInterval,
    Protocol := DefaultProtocol, Debug := debug, conn := none, baseInfo := ⟨0, 0⟩ }

/-! ## Sample inputs -/

/-- A client with the default configuration and no connection yet. -/
def defaultClient : Client :=
  { Server := DefaultServer, Port := DefaultPort, Username := DefaultUsername,
    Password := DefaultPassword, Interval := DefaultInterval, Protocol := DefaultProtocol,
    Debug := false, conn := none, baseInfo := ⟨0, 0⟩ }

/-- A process that has dialled nothing yet. -/
def freshState : State := ⟨defaultClient, [], 0⟩

/-- A peer that sends the banner for an IPv4 connection at once. -/
def ipv4Peer : Dial := ⟨none, [⟨str "You are connecting via: IPv4\n", none, none⟩]⟩

/-- A peer that asks for the credentials and then sends the banner for an
IPv6 connection. -/
def ipv6Peer : Dial :=
  ⟨none, [⟨str "Authentication required\n", none, none⟩,
    ⟨str "Authentication successful. Access granted.\nYou are connecting via: IPv6\n", none, none⟩]⟩

/-- A peer that asks for the credentials and then lets the read time out. -/
def silentPeer : Dial :=
  ⟨none, [⟨str "Authentication required\n", none, none⟩, ⟨[], some (str "i/o timeout"), none⟩]⟩

/-- A final message that holds the banner and the challenge at once. -/
def mixedMessage : GoString := str "Authentication required. You are connecting via: IPv4\n"

/-- A tick whose send fails on a network where nothing can be dialled. -/
def deadTick : Tick :=
  ⟨[], .ok (str "\x7b\x7d"), fun _ => some (str "broken pipe"), ⟨some (str "connection refused"), []⟩⟩

/-- A tick whose send succeeds unless the connection has been closed, on a
network where the server answers a dial with an IPv4 banner. -/
def liveTick : Tick :=
  ⟨[], .ok (str "\x7b\x7d"), fun isClosed => if isClosed then some (str "use of closed network connection") else none,
    ipv4Peer⟩

/-- A tick whose snapshot cannot be encoded. -/
def badTick : Tick :=
  ⟨[], .error (str "json: unsupported value: NaN"), fun _ => none, ipv4Peer⟩

/-- The state a default client is in after `Conn` succeeded against `ipv4Peer`. -/
def connectedState : State := (Conn freshState ipv4Peer).state

/-! ## Lemmas on strings -/

theorem Contains_iff_occurs (s substr : GoString) : Contains s substr = true ↔ substr <:+: s := by
  induction s with
  | nil => simp [Contains]
  | cons c cs ih =>
    rw [Contains, Bool.or_eq_true, ih, List.infix_cons_iff, List.isPrefixOf_iff_prefix]

theorem Contains_append_right (a b : GoString) : Contains (a ++ b) b = true :=
  (Contains_iff_occurs _ _).2 ⟨a, [], by simp⟩

theorem readErrorText_contains_err (e recvData : GoString) :
    Contains (readErrorText e recvData) e = true :=
  (Contains_iff_occurs _ _).2 ⟨str "[连接]数据响应错误：", str "，" ++ recvData, by simp [readErrorText]⟩

theorem readErrorText_contains_buf (e recvData : GoString) :
    Contains (readErrorText e recvData) recvData = true :=
  Contains_append_right _ _

theorem readInto_length (recvData bytes : GoString) :
    (readInto recvData bytes).length = recvData.length := by
  simp only [readInto, List.length_take, List.length_append, List.length_drop]
  omega

/-! ## The handshake loop, case by case -/

theorem connLoop_readErr (c : Client) (st : Step) (rest : List Step) (buf e : GoString)
    (h : st.readErr = some e) :
    connLoop c (st :: rest) buf =
      ⟨.err (readErrorText e (readInto buf st.bytes)), c, readInto buf st.bytes,
        [.setReadDeadline, .setWriteDeadline, .read st.bytes (some e)]⟩ := by
  rw [connLoop]; simp [h]

theorem connLoop_writeErr (c : Client) (st : Step) (rest : List Step) (buf e : GoString)
    (h : st.readErr = none) (ha : Contains (readInto buf st.bytes) challenge = true)
    (hw : st.writeErr = some e) :
    connLoop c (st :: rest) buf =
      ⟨.err (str "[连接]数据发送失败：" ++ e), c, readInto buf st.bytes,
        [.setReadDeadline, .setWriteDeadline, .read st.bytes none,
          .write (credentials c.Username c.Password) (some e)]⟩ := by
  rw [connLoop]; simp [h, ha, hw]

theorem connLoop_challenge (c : Client) (st : Step) (rest : List Step) (buf : GoString)
    (h : st.readErr = none) (ha : Contains (readInto buf st.bytes) challenge = true)
    (hw : st.writeErr = none) :
    connLoop c (st :: rest) buf =
      { connLoop c rest (readInto buf st.bytes) with
        trace := .setReadDeadline :: .setWriteDeadline :: .read st.bytes none ::
          .write (credentials c.Username c.Password) none ::
          (connLoop c rest (readInto buf st.bytes)).trace } := by
  rw [connLoop]; simp [h, ha, hw]

theorem connLoop_banner (c : Client) (st : Step) (rest : List Step) (buf : GoString)
    (h : st.readErr = none) (ha : Contains (readInto buf st.bytes) challenge = false)
    (hb : Contains (readInto buf st.bytes) banner = true) :
    connLoop c (st :: rest) buf =
      ⟨.nil, { c with baseInfo := { c.baseInfo with
          checkIp := if Contains (readInto buf st.bytes) ipv4Mark = true then 6 else 4 } },
        readInto buf st.bytes, [.setReadDeadline, .setWriteDeadline, .read st.bytes none]⟩ := by
  rw [connLoop]
  cases h4 : Contains (readInto buf st.bytes) ipv4Mark <;> simp [h, ha, hb, h4]

theorem connLoop_other (c : Client) (st : Step) (rest : List Step) (buf : GoString)
    (h : st.readErr = none) (ha : Contains (readInto buf st.bytes) challenge = false)
    (hb : Contains (readInto buf st.bytes) banner = false) :
    connLoop c (st :: rest) buf =
      { connLoop c rest (readInto buf st.bytes) with
        trace := .setReadDeadline :: .setWriteDeadline :: .read st.bytes none ::
          (connLoop c rest (readInto buf st.bytes)).trace } := by
  rw [connLoop]; simp [h, ha, hb]

/-- Case analysis on the handshake loop: a property of its result follows
from the five ways one iteration can go. -/
theorem connLoop_cases (c : Client) (P : List Step → GoString → Loop → Prop)
    (hnil : ∀ buf, P [] buf ⟨.blocked, c, buf, [.setReadDeadline, .setWriteDeadline]⟩)
    (hread : ∀ st rest buf e, st.readErr = some e →
      P (st :: rest) buf ⟨.err (readErrorText e (readInto buf st.bytes)), c, readInto buf st.bytes,
        [.setReadDeadline, .setWriteDeadline, .read st.bytes (some e)]⟩)
    (hwrite : ∀ st rest buf e, st.readErr = none →
      Contains (readInto buf st.bytes) challenge = true → st.writeErr = some e →
      P (st :: rest) buf ⟨.err (str "[连接]数据发送失败：" ++ e), c, readInto buf st.bytes,
        [.setReadDeadline, .setWriteDeadline, .read st.bytes none,
          .write (credentials c.Username c.Password) (some e)]⟩)
    (hchal : ∀ st rest buf, st.readErr = none →
      Contains (readInto buf st.bytes) challenge = true → st.writeErr = none →
      P rest (readInto buf st.bytes) (connLoop c rest (readInto buf st.bytes)) →
      P (st :: rest) buf { connLoop c rest (readInto buf st.bytes) with
        trace := .setReadDeadline :: .setWriteDeadline :: .read st.bytes none ::
          .write (credentials c.Username c.Password) none ::
          (connLoop c rest (readInto buf st.bytes)).trace })
    (hban : ∀ st rest buf, st.readErr = none →
      Contains (readInto buf st.bytes) challenge = false →
      Contains (readInto buf st.bytes) banner = true →
      P (st :: rest) buf ⟨.nil, { c with baseInfo := { c.baseInfo with
          checkIp := if Contains (readInto buf st.bytes) ipv4Mark = true then 6 else 4 } },
        readInto buf st.bytes, [.setReadDeadline, .setWriteDeadline, .read st.bytes none]⟩)
    (hother : ∀ st rest buf, st.readErr = none →
      Contains (readInto buf st.bytes) challenge = false →
      Contains (readInto buf st.bytes) banner = false →
      P rest (readInto buf st.bytes) (connLoop c rest (readInto buf st.bytes)) →
      P (st :: rest) buf { connLoop c rest (readInto buf st.bytes) with
        trace := .setReadDeadline :: .setWriteDeadline :: .read st.bytes none ::
          (connLoop c rest (readInto buf st.bytes)).trace })
    (steps : List Step) (buf : GoString) : P steps buf (connLoop c steps buf) := by
  induction steps generalizing buf with
  | nil => exact hnil buf
  | cons st rest ih =>
    cases hre : st.readErr with
    | some e => rw [connLoop_readErr c st rest buf e hre]; exact hread st rest buf e hre
    | none =>
      cases ha : Contains (readInto buf st.bytes) challenge with
      | true =>
        cases hw : st.writeErr with
        | some e =>
          rw [connLoop_writeErr c st rest buf e hre ha hw]; exact hwrite st rest buf e hre ha hw
        | none =>
          rw [connLoop_challenge c st rest buf hre ha hw]; exact hchal st rest buf hre ha hw (ih _)
      | false =>
        cases hb : Contains (readInto buf st.bytes) banner with
        | true => rw [connLoop_banner c st rest buf hre ha hb]; exact hban st rest buf hre ha hb
        | false =>
          rw [connLoop_other c st rest buf hre ha hb]; exact hother st rest buf hre ha hb (ih _)

theorem connLoop_recvData (c : Client) (steps : List Step) (buf : GoString) :
    (connLoop c steps buf).recvData = bufferAfter buf (connReads (connLoop c steps buf).trace) := by
  refine connLoop_cases c (fun _ buf r => r.recvData = bufferAfter buf (connReads r.trace))
    ?_ ?_ ?_ ?_ ?_ ?_ steps buf
  · intro buf; rfl
  · intro st rest buf e _; rfl
  · intro st rest buf e _ _ _; rfl
  · intro st rest buf _ _ _ ih; exact ih
  · intro st rest buf _ _ _; rfl
  · intro st rest buf _ _ _ ih; exact ih

theorem connLoop_recvData_length (c : Client) (steps : List Step) (buf : GoString) :
    (connLoop c steps buf).recvData.length = buf.length := by
  refine connLoop_cases c (fun _ buf r => r.recvData.length = buf.length)
    ?_ ?_ ?_ ?_ ?_ ?_ steps buf
  · intro buf; rfl
  · intro st rest buf e _; exact readInto_length _ _
  · intro st rest buf e _ _ _; exact readInto_length _ _
  · intro st rest buf _ _ _ ih; exact ih.trans (readInto_length _ _)
  · intro st rest buf _ _ _; exact readInto_length _ _
  · intro st rest buf _ _ _ ih; exact ih.trans (readInto_length _ _)

theorem connLoop_nil (c : Client) (steps : List Step) (buf : GoString)
    (h : (connLoop c steps buf).ret = .nil) :
    Contains (connLoop c steps buf).recvData challenge = false ∧
    Contains (connLoop c steps buf).recvData banner = true ∧
    (connLoop c steps buf).client = { c with baseInfo := { c.baseInfo with
      checkIp := if Contains (connLoop c steps buf).recvData ipv4Mark = true then 6 else 4 } } ∧
    ∀ ev ∈ (connLoop c steps buf).trace, ev.failed = false := by
  revert h
  refine connLoop_cases c (fun _ _ r => r.ret = .nil →
    Contains r.recvData challenge = false ∧ Contains r.recvData banner = true ∧
    r.client = { c with baseInfo := { c.baseInfo with
      checkIp := if Contains r.recvData ipv4Mark = true then 6 else 4 } } ∧
    ∀ ev ∈ r.trace, ev.failed = false) ?_ ?_ ?_ ?_ ?_ ?_ steps buf
  · intro buf h; cases h
  · intro st rest buf e _ h; cases h
  · intro st rest buf e _ _ _ h; cases h
  · intro st rest buf _ _ _ ih h
    obtain ⟨h1, h2, h3, h4⟩ := ih h
    refine ⟨h1, h2, h3, ?_⟩
    intro ev hev
    simp only [List.mem_cons] at hev
    rcases hev with rfl | rfl | rfl | rfl | hev
    · rfl
    · rfl
    · rfl
    · rfl
    · exact h4 ev hev
  · intro st rest buf _ ha hb _
    refine ⟨ha, hb, rfl, ?_⟩
    intro ev hev
    simp only [List.mem_cons, List.mem_singleton, List.not_mem_nil, or_false] at hev
    rcases hev with rfl | rfl | rfl <;> rfl
  · intro st rest buf _ _ _ ih h
    obtain ⟨h1, h2, h3, h4⟩ := ih h
    refine ⟨h1, h2, h3, ?_⟩
    intro ev hev
    simp only [List.mem_cons] at hev
    rcases hev with rfl | rfl | rfl | hev
    · rfl
    · rfl
    · rfl
    · exact h4 ev hev

theorem connLoop_client_of_ne_nil (c : Client) (steps : List Step) (buf : GoString)
    (h : (connLoop c steps buf).ret ≠ .nil) : (connLoop c steps buf).client = c := by
  revert h
  refine connLoop_cases c (fun _ _ r => r.ret ≠ .nil → r.client = c) ?_ ?_ ?_ ?_ ?_ ?_ steps buf
  · intro buf _; rfl
  · intro st rest buf e _ _; rfl
  · intro st rest buf e _ _ _ _; rfl
  · intro st rest buf _ _ _ ih h; exact ih h
  · intro st rest buf _ _ _ h; exact absurd rfl h
  · intro st rest buf _ _ _ ih h; exact ih h

theorem connLoop_trace_ne_nil (c : Client) (steps : List Step) (buf : GoString) :
    (connLoop c steps buf).trace ≠ [] := by
  refine connLoop_cases c (fun _ _ r => r.trace ≠ []) ?_ ?_ ?_ ?_ ?_ ?_ steps buf <;>
    intros <;> simp

theorem connLoop_read_error (c : Client) (steps : List Step) (buf bytes e : GoString)
    (h : ConnEvent.read bytes (some e) ∈ (connLoop c steps buf).trace) :
    (connLoop c steps buf).ret = .err (readErrorText e (connLoop c steps buf).recvData) ∧
    (connLoop c steps buf).trace.getLast? = some (.read bytes (some e)) := by
  revert h
  refine connLoop_cases c (fun _ _ r => ConnEvent.read bytes (some e) ∈ r.trace →
    r.ret = .err (readErrorText e r.recvData) ∧
    r.trace.getLast? = some (.read bytes (some e))) ?_ ?_ ?_ ?_ ?_ ?_ steps buf
  · intro buf h; simp at h
  · intro st rest buf e1 _ h
    simp at h
    obtain ⟨rfl, rfl⟩ := h
    exact ⟨rfl, rfl⟩
  · intro st rest buf e1 _ _ _ h; simp at h
  · intro st rest buf _ _ _ ih h
    simp at h
    obtain ⟨h1, h2⟩ := ih h
    refine ⟨h1, ?_⟩
    have hne := connLoop_trace_ne_nil c rest (readInto buf st.bytes)
    obtain ⟨x, xs, hx⟩ := List.exists_cons_of_ne_nil hne
    simp only [hx] at h2 ⊢
    simpa using h2
  · intro st rest buf _ _ _ h; simp at h
  · intro st rest buf _ _ _ ih h
    simp at h
    obtain ⟨h1, h2⟩ := ih h
    refine ⟨h1, ?_⟩
    have hne := connLoop_trace_ne_nil c rest (readInto buf st.bytes)
    obtain ⟨x, xs, hx⟩ := List.exists_cons_of_ne_nil hne
    simp only [hx] at h2 ⊢
    simpa using h2

theorem connLoop_err_failed (c : Client) (steps : List Step) (buf msg : GoString)
    (h : (connLoop c steps buf).ret = .err msg) :
    ∃ ev ∈ (connLoop c steps buf).trace, ev.failed = true := by
  revert h
  refine connLoop_cases c (fun _ _ r => r.ret = .err msg → ∃ ev ∈ r.trace, ev.failed = true)
    ?_ ?_ ?_ ?_ ?_ ?_ steps buf
  · intro buf h; cases h
  · intro st rest buf e _ _; exact ⟨.read st.bytes (some e), by simp, rfl⟩
  · intro st rest buf e _ _ _ _
    exact ⟨.write (credentials c.Username c.Password) (some e), by simp, rfl⟩
  · intro st rest buf _ _ _ ih h
    obtain ⟨ev, hev, hf⟩ := ih h
    exact ⟨ev, by simp [hev], hf⟩
  · intro st rest buf _ _ _ h; cases h
  · intro st rest buf _ _ _ ih h
    obtain ⟨ev, hev, hf⟩ := ih h
    exact ⟨ev, by simp [hev], hf⟩

/-! ## `Conn`, case by case -/

theorem Conn_dialErr (s : State) (net : Dial) (e : GoString) (h : net.dialErr = some e) :
    Conn s net = ⟨.err (str "[连接]建立失败：" ++ e), s, List.replicate 128 0,
      [.dial (s.client.Server ++ str ":" ++ s.client.Port) (some e)]⟩ := by
  simp [Conn, h]

theorem Conn_nil (s : State) (net : Dial) (h : net.dialErr = none)
    (hr : (connLoop s.client net.steps (List.replicate 128 0)).ret = .nil) :
    Conn s net = ⟨.nil,
      { s with
        client := { (connLoop s.client net.steps (List.replicate 128 0)).client with
          conn := some s.nextConn },
        nextConn := s.nextConn + 1 },
      (connLoop s.client net.steps (List.replicate 128 0)).recvData,
      .dial (s.client.Server ++ str ":" ++ s.client.Port) none ::
        (connLoop s.client net.steps (List.replicate 128 0)).trace ++
        [.log (str "服务器连接成功")]⟩ := by
  simp only [Conn, h, hr]

theorem Conn_not_nil (s : State) (net : Dial) (h : net.dialErr = none)
    (hr : (connLoop s.client net.steps (List.replicate 128 0)).ret ≠ .nil) :
    Conn s net = ⟨(connLoop s.client net.steps (List.replicate 128 0)).ret,
      { s with client := s.client, nextConn := s.nextConn + 1 },
      (connLoop s.client net.steps (List.replicate 128 0)).recvData,
      .dial (s.client.Server ++ str ":" ++ s.client.Port) none ::
        (connLoop s.client net.steps (List.replicate 128 0)).trace⟩ := by
  have hc := connLoop_client_of_ne_nil s.client net.steps _ hr
  simp only [Conn, h]
  rw [hc]

/-- The return value of `Conn` is that of its loop once the dial succeeded. -/
theorem Conn_ret (s : State) (net : Dial) (h : net.dialErr = none) :
    (Conn s net).ret = (connLoop s.client net.steps (List.replicate 128 0)).ret := by
  by_cases hr : (connLoop s.client net.steps (List.replicate 128 0)).ret = .nil
  · rw [Conn_nil s net h hr, hr]
  · rw [Conn_not_nil s net h hr]

/-! ## The receive buffer across reads -/

theorem isPrefixOf_append_zeros (needle : GoString) (hz : ∀ b ∈ needle, b ≠ 0)
    (a : GoString) (k : Nat) :
    needle.isPrefixOf (a ++ List.replicate k 0) = needle.isPrefixOf a := by
  induction needle generalizing a with
  | nil => simp
  | cons n ns ih =>
    have hn : n ≠ 0 := hz n (List.mem_cons_self _ _)
    have hns : ∀ b ∈ ns, b ≠ 0 := fun b hb => hz b (List.mem_cons_of_mem _ hb)
    cases a with
    | nil =>
      cases k with
      | zero => simp
      | succ k => simp [List.replicate_succ, List.isPrefixOf, hn]
    | cons x xs =>
      have h := ih hns xs
      simp only [List.cons_append, List.isPrefixOf, List.append_eq, h]

theorem Contains_zeros (needle : GoString) (hz : ∀ b ∈ needle, b ≠ 0) (k : Nat) :
    Contains (List.replicate k 0) needle = Contains [] needle := by
  induction k with
  | zero => rfl
  | succ k ih =>
    have h := isPrefixOf_append_zeros needle hz [] (k + 1)
    rw [List.nil_append, List.replicate_succ] at h
    have hc : Contains (0 :: List.replicate k 0) needle =
        (needle.isPrefixOf (0 :: List.replicate k 0) || Contains (List.replicate k 0) needle) := by
      rw [Contains]
    rw [List.replicate_succ, hc, h, ih]
    cases needle <;> simp [Contains]

theorem Contains_append_zeros (needle : GoString) (hz : ∀ b ∈ needle, b ≠ 0)
    (a : GoString) (k : Nat) :
    Contains (a ++ List.replicate k 0) needle = Contains a needle := by
  induction a with
  | nil => rw [List.nil_append]; exact Contains_zeros needle hz k
  | cons c cs ih =>
    have h := isPrefixOf_append_zeros needle hz (c :: cs) k
    rw [List.cons_append] at h
    rw [List.cons_append, Contains, Contains, h, ih]

theorem challenge_nonzero : ∀ b ∈ challenge, b ≠ 0 := by decide

theorem banner_nonzero : ∀ b ∈ banner, b ≠ 0 := by decide

theorem readInto_eq_append (buf bytes : GoString) (h : bytes.length ≤ buf.length) :
    readInto buf bytes = bytes ++ buf.drop bytes.length := by
  rw [readInto]
  apply List.take_of_length_le
  simp only [List.length_append, List.length_drop]
  omega

theorem Contains_readInto_of_Contains (buf bytes needle : GoString)
    (h : bytes.length ≤ buf.length) (hc : Contains bytes needle = true) :
    Contains (readInto buf bytes) needle = true := by
  rw [readInto_eq_append buf bytes h, Contains_iff_occurs]
  exact ((Contains_iff_occurs _ _).1 hc).trans (List.prefix_append _ _).isInfix

theorem ZeroFrom_replicate (n k : Nat) : ZeroFrom n (List.replicate k 0) := by
  simp [ZeroFrom]

theorem ZeroFrom_readInto (n : Nat) (buf bytes : GoString) (h : bytes.length ≤ n)
    (hn : n ≤ buf.length) (hz : ZeroFrom n buf) : ZeroFrom n (readInto buf bytes) := by
  unfold ZeroFrom at hz ⊢
  rw [readInto_length, readInto_eq_append buf bytes (h.trans hn), List.drop_append_eq_append_drop,
    List.drop_of_length_le h, List.nil_append, List.drop_drop, ← hz]
  congr 1
  omega

theorem readInto_of_ZeroFrom (buf bytes : GoString) (h : bytes.length ≤ buf.length)
    (hz : ZeroFrom bytes.length buf) :
    readInto buf bytes = bytes ++ List.replicate (buf.length - bytes.length) 0 := by
  rw [readInto_eq_append buf bytes h, hz]

theorem connWrites_append (a b : List ConnEvent) :
    connWrites (a ++ b) = connWrites a ++ connWrites b := by
  induction a with
  | nil => rfl
  | cons ev evs ih => cases ev <;> simp [connWrites, ih]

theorem connLoop_challenges (c : Client) (final : GoString) (hlen : final.length ≤ 128)
    (hban : Contains final banner = true) (hno : Contains final challenge = false)
    (challenges : List GoString)
    (hch : ∀ m ∈ challenges, Contains m challenge = true ∧ m.length ≤ final.length)
    (buf : GoString) (hbuf : buf.length = 128) (hz : ZeroFrom final.length buf) :
    (connLoop c (peerOf challenges final).steps buf).ret = .nil ∧
    connWrites (connLoop c (peerOf challenges final).steps buf).trace =
      List.replicate challenges.length (credentials c.Username c.Password) := by
  induction challenges generalizing buf with
  | nil =>
    have hr := readInto_of_ZeroFrom buf final (by omega) hz
    have h1 : Contains (readInto buf final) challenge = false := by
      rw [hr, Contains_append_zeros _ challenge_nonzero]; exact hno
    have h2 : Contains (readInto buf final) banner = true := by
      rw [hr, Contains_append_zeros _ banner_nonzero]; exact hban
    have := connLoop_banner c ⟨final, none, none⟩ [] buf rfl h1 h2
    simp only [peerOf, List.map_nil, List.nil_append]
    rw [this]
    exact ⟨rfl, rfl⟩
  | cons m ms ih =>
    obtain ⟨hm1, hm2⟩ := hch m (List.mem_cons_self _ _)
    have h1 : Contains (readInto buf m) challenge = true :=
      Contains_readInto_of_Contains buf m challenge (by omega) hm1
    have hstep := connLoop_challenge c ⟨m, none, none⟩
      ((peerOf ms final).steps) buf rfl h1 rfl
    obtain ⟨ih1, ih2⟩ := ih (fun x hx => hch x (List.mem_cons_of_mem _ hx)) (readInto buf m)
      ((readInto_length _ _).trans hbuf) (ZeroFrom_readInto _ buf m hm2 (by omega) hz)
    have hs : (peerOf (m :: ms) final).steps = ⟨m, none, none⟩ :: (peerOf ms final).steps := rfl
    rw [hs, hstep]
    refine ⟨ih1, ?_⟩
    simp only [connWrites, List.length_cons, List.replicate_succ]
    rw [ih2]

/-! ## One tick, case by case -/

theorem tick_marshalErr (t : Tick) (s : State) (e : GoString) (h : t.marshal = .error e) :
    tick t s = ⟨s, (if s.client.Debug then [.log (str "获取耗时：" ++ t.elapsed)] else []) ++
      [.log e], true⟩ := by
  simp only [tick, h]

theorem tick_noConn (t : Tick) (s : State) (J : GoString) (h : t.marshal = .ok J)
    (hc : s.client.conn = none) :
    tick t s = ⟨s, (if s.client.Debug then [.log (str "获取耗时：" ++ t.elapsed)] else []) ++
      [.crash], false⟩ := by
  simp only [tick, h, hc]

theorem tick_writeOk (t : Tick) (s : State) (J : GoString) (k : Nat) (h : t.marshal = .ok J)
    (hc : s.client.conn = some k) (hw : t.write (decide (k ∈ s.closed)) = none) :
    tick t s = ⟨s, (if s.client.Debug then [.log (str "获取耗时：" ++ t.elapsed)] else []) ++
      [.setWriteDeadline k, .write k (str "update " ++ J ++ str "\n") none,
        .log (str "发送成功：" ++ str (toString (str "update " ++ J ++ str "\n").length) ++
          str "Byte\n")], true⟩ := by
  simp only [tick, h, hc, hw]

theorem tick_writeFail (t : Tick) (s : State) (J e : GoString) (k : Nat) (h : t.marshal = .ok J)
    (hc : s.client.conn = some k) (hw : t.write (decide (k ∈ s.closed)) = some e) :
    tick t s = ⟨(Conn { s with closed := k :: s.closed } t.redial).state,
      (if s.client.Debug then [.log (str "获取耗时：" ++ t.elapsed)] else []) ++
      [.setWriteDeadline k, .write k (str "update " ++ J ++ str "\n") (some e), .close k,
        .log (str "[准备重连]发送失败：" ++ e ++ str "\n"),
        .connCall (Conn { s with closed := k :: s.closed } t.redial).trace
          (Conn { s with closed := k :: s.closed } t.redial).ret] ++
      (match (Conn { s with closed := k :: s.closed } t.redial).ret with
        | .err msg => [.log (str "服务器重连失败：" ++ msg ++ str "\n")]
        | _ => []),
      decide ((Conn { s with closed := k :: s.closed } t.redial).ret ≠ .blocked)⟩ := by
  simp only [tick, h, hc, hw]
  cases (Conn { s with closed := k :: s.closed } t.redial).ret <;> simp

theorem netActions_dbg (b : Bool) (l : GoString) (evs : List LoopEvent) :
    netActions ((if b = true then [LoopEvent.log l] else []) ++ evs) = netActions evs := by
  cases b <;> simp [netActions, LoopEvent.isLog]

theorem Conn_client_of_ne_nil (s : State) (net : Dial) (h : (Conn s net).ret ≠ .nil) :
    (Conn s net).state.client = s.client := by
  cases hd : net.dialErr with
  | some e => rw [Conn_dialErr s net e hd]
  | none =>
    have hr : (connLoop s.client net.steps (List.replicate 128 0)).ret ≠ .nil := by
      rw [← Conn_ret s net hd]; exact h
    rw [Conn_not_nil s net hd hr]

theorem Conn_conn_ne_none (s : State) (net : Dial) (h : s.client.conn ≠ none) :
    (Conn s net).state.client.conn ≠ none := by
  by_cases hn : (Conn s net).ret = .nil
  · cases hd : net.dialErr with
    | some e => rw [Conn_dialErr s net e hd] at hn; cases hn
    | none =>
      have hr : (connLoop s.client net.steps (List.replicate 128 0)).ret = .nil := by
        rw [← Conn_ret s net hd]; exact hn
      rw [Conn_nil s net hd hr]
      simp
  · rw [Conn_client_of_ne_nil s net hn]; exact h

theorem Conn_closed (s : State) (net : Dial) : (Conn s net).state.closed = s.closed := by
  cases hd : net.dialErr with
  | some e => rw [Conn_dialErr s net e hd]
  | none =>
    by_cases hr : (connLoop s.client net.steps (List.replicate 128 0)).ret = .nil
    · rw [Conn_nil s net hd hr]
    · rw [Conn_not_nil s net hd hr]

/-- What a tick does, by the outcome of the encoding and of the send. -/
theorem tick_cases (t : Tick) (s : State) :
    (∃ e, t.marshal = .error e ∧ (tick t s).state = s ∧ (tick t s).returned = true ∧
      netActions (tick t s).events = []) ∨
    (∃ J, t.marshal = .ok J ∧ s.client.conn = none ∧ (tick t s).state = s ∧
      (tick t s).returned = false ∧ netActions (tick t s).events = []) ∨
    (∃ J k, t.marshal = .ok J ∧ s.client.conn = some k ∧
      t.write (decide (k ∈ s.closed)) = none ∧ (tick t s).state = s ∧
      (tick t s).returned = true ∧
      netActions (tick t s).events =
        [.setWriteDeadline k, .write k (str "update " ++ J ++ str "\n") none]) ∨
    (∃ J k e, t.marshal = .ok J ∧ s.client.conn = some k ∧
      t.write (decide (k ∈ s.closed)) = some e ∧
      (tick t s).state = (Conn { s with closed := k :: s.closed } t.redial).state ∧
      (tick t s).returned =
        decide ((Conn { s with closed := k :: s.closed } t.redial).ret ≠ .blocked) ∧
      netActions (tick t s).events =
        [.setWriteDeadline k, .write k (str "update " ++ J ++ str "\n") (some e), .close k,
          .connCall (Conn { s with closed := k :: s.closed } t.redial).trace
            (Conn { s with closed := k :: s.closed } t.redial).ret]) := by
  cases hm : t.marshal with
  | error e =>
    refine Or.inl ⟨e, rfl, ?_⟩
    rw [tick_marshalErr t s e hm]
    refine ⟨rfl, rfl, ?_⟩
    rw [netActions_dbg]; rfl
  | ok J =>
    cases hc : s.client.conn with
    | none =>
      refine Or.inr (Or.inl ⟨J, rfl, rfl, ?_⟩)
      rw [tick_noConn t s J hm hc]
      refine ⟨rfl, rfl, ?_⟩
      rw [netActions_dbg]; rfl
    | some k =>
      cases hw : t.write (decide (k ∈ s.closed)) with
      | none =>
        refine Or.inr (Or.inr (Or.inl ⟨J, k, rfl, rfl, hw, ?_⟩))
        rw [tick_writeOk t s J k hm hc hw]
        refine ⟨rfl, rfl, ?_⟩
        rw [netActions_dbg]; rfl
      | some e =>
        refine Or.inr (Or.inr (Or.inr ⟨J, k, e, rfl, rfl, hw, ?_⟩))
        rw [tick_writeFail t s J e k hm hc hw]
        refine ⟨rfl, rfl, ?_⟩
        simp only [List.append_assoc]
        rw [netActions_dbg]
        cases (Conn { s with closed := k :: s.closed } t.redial).ret <;> rfl

theorem filter_filter_of_imp {α : Type} (p q : α → Bool) (h : ∀ a, p a = true → q a = true)
    (l : List α) : (l.filter q).filter p = l.filter p := by
  induction l with
  | nil => rfl
  | cons a l ih =>
    by_cases hq : q a = true
    · rw [List.filter_cons_of_pos hq]
      by_cases hp : p a = true
      · rw [List.filter_cons_of_pos hp, List.filter_cons_of_pos hp, ih]
      · rw [List.filter_cons_of_neg hp, List.filter_cons_of_neg hp, ih]
    · have hp : ¬ p a = true := fun hp => hq (h a hp)
      rw [List.filter_cons_of_neg hq, List.filter_cons_of_neg hp, ih]

theorem countP_filter_of_imp {α : Type} (p q : α → Bool) (h : ∀ a, p a = true → q a = true)
    (l : List α) : (l.filter q).countP p = l.countP p := by
  rw [List.countP_eq_length_filter, List.countP_eq_length_filter, filter_filter_of_imp p q h]

theorem any_filter_of_imp {α : Type} (p q : α → Bool) (h : ∀ a, p a = true → q a = true)
    (l : List α) : (l.filter q).any p = l.any p := by
  induction l with
  | nil => rfl
  | cons a l ih =>
    by_cases hq : q a = true
    · rw [List.filter_cons_of_pos hq, List.any_cons, List.any_cons, ih]
    · have hp : p a = false := by
        cases hpa : p a with
        | false => rfl
        | true => exact absurd (h a hpa) hq
      rw [List.filter_cons_of_neg hq, List.any_cons, hp, ih]
      rfl

theorem filter_isWrite_netActions (evs : List LoopEvent) :
    (netActions evs).filter LoopEvent.isWrite = evs.filter LoopEvent.isWrite :=
  filter_filter_of_imp _ _ (fun a h => by cases a <;> simp_all [LoopEvent.isWrite, LoopEvent.isLog]) evs

theorem countP_isConnCall_netActions (evs : List LoopEvent) :
    (netActions evs).countP LoopEvent.isConnCall = evs.countP LoopEvent.isConnCall :=
  countP_filter_of_imp _ _
    (fun a h => by cases a <;> simp_all [LoopEvent.isConnCall, LoopEvent.isLog]) evs

theorem any_isFailedWrite_netActions (evs : List LoopEvent) :
    (netActions evs).any LoopEvent.isFailedWrite = evs.any LoopEvent.isFailedWrite :=
  any_filter_of_imp _ _
    (fun a h => by cases a <;> simp_all [LoopEvent.isFailedWrite, LoopEvent.isLog]) evs

theorem mem_netActions_write (k : Nat) (d : GoString) (err : Option GoString)
    (evs : List LoopEvent) (h : LoopEvent.write k d err ∈ evs) :
    LoopEvent.write k d err ∈ netActions evs :=
  List.mem_filter.2 ⟨h, rfl⟩

/-- Every tick whose body was entered satisfies what each body establishes
from an invariant of the state. -/
theorem runTicks_forall (P : Tick → List LoopEvent → Prop) (Inv : State → Prop)
    (hstep : ∀ t s, Inv s → P t (tick t s).events ∧ Inv (tick t s).state)
    (ticks : List Tick) (s : State) (hs : Inv s) :
    ∀ p ∈ List.zip ticks (runTicks ticks s).1, P p.1 p.2 := by
  induction ticks generalizing s with
  | nil => intro p hp; simp [runTicks] at hp
  | cons t ts ih =>
    intro p hp
    obtain ⟨h1, h2⟩ := hstep t s hs
    rw [runTicks] at hp
    by_cases hr : (tick t s).returned = true
    · simp only [hr, if_true, List.zip_cons_cons, List.mem_cons] at hp
      rcases hp with rfl | hp
      · exact h1
      · exact ih _ h2 p hp
    · simp [hr] at hp
      rw [hp]
      exact h1

theorem mem_runTicks_zip (ticks : List Tick) (s : State) (evs : List LoopEvent)
    (h : evs ∈ (runTicks ticks s).1) : ∃ t, (t, evs) ∈ List.zip ticks (runTicks ticks s).1 := by
  induction ticks generalizing s with
  | nil => simp [runTicks] at h
  | cons t ts ih =>
    rw [runTicks] at h ⊢
    by_cases hr : (tick t s).returned = true
    · simp only [hr, if_true, List.mem_cons] at h ⊢
      rcases h with rfl | h
      · exact ⟨t, by simp⟩
      · obtain ⟨t1, ht1⟩ := ih _ h
        exact ⟨t1, by simp [ht1]⟩
    · simp [hr] at h ⊢
      exact h

/-! ## The reconnect policy of one tick -/

theorem tick_policy (t : Tick) (s : State) : TickPolicy (tick t s).events := by
  have hmem : ∀ k d err, LoopEvent.write k d err ∈ (tick t s).events →
      LoopEvent.write k d err ∈ netActions (tick t s).events :=
    fun k d err h => mem_netActions_write k d err _ h
  unfold TickPolicy
  rw [← countP_isConnCall_netActions, ← any_isFailedWrite_netActions]
  rcases tick_cases t s with ⟨e, _, _, _, hn⟩ | ⟨J, _, _, _, _, hn⟩ | ⟨J, k1, _, _, _, _, _, hn⟩ |
    ⟨J, k1, e, _, _, _, _, _, hn⟩
  · refine ⟨fun k d e h => ?_, fun k d h => ?_, by rw [hn]; rfl⟩
    · have := hmem _ _ _ h; rw [hn] at this; simp at this
    · have := hmem _ _ _ h; rw [hn] at this; simp at this
  · refine ⟨fun k d e h => ?_, fun k d h => ?_, by rw [hn]; rfl⟩
    · have := hmem _ _ _ h; rw [hn] at this; simp at this
    · have := hmem _ _ _ h; rw [hn] at this; simp at this
  · refine ⟨fun k d e h => ?_, fun k d h => ?_, by rw [hn]; rfl⟩
    · have := hmem _ _ _ h; rw [hn] at this; simp at this
    · have := hmem _ _ _ h
      rw [hn] at this ⊢
      simp at this
      obtain ⟨rfl, rfl⟩ := this
      rfl
  · refine ⟨fun k d e1 h => ?_, fun k d h => ?_, by rw [hn]; rfl⟩
    · have := hmem _ _ _ h
      rw [hn] at this ⊢
      simp at this
      obtain ⟨rfl, rfl, rfl⟩ := this
      exact ⟨_, _, rfl⟩
    · have := hmem _ _ _ h; rw [hn] at this; simp at this

theorem runTicks_policy (ticks : List Tick) (s : State) :
    ∀ evs ∈ (runTicks ticks s).1, TickPolicy evs := by
  intro evs hevs
  obtain ⟨t, ht⟩ := mem_runTicks_zip ticks s evs hevs
  exact runTicks_forall (fun _ evs => TickPolicy evs) (fun _ => True)
    (fun t s _ => ⟨tick_policy t s, trivial⟩) ticks s trivial (t, evs) ht

theorem connAttempts_eq_failedSends (run : List (List LoopEvent))
    (h : ∀ evs ∈ run, TickPolicy evs) : connAttempts run = failedSends run := by
  induction run with
  | nil => rfl
  | cons evs rest ih =>
    have h1 := (h evs (List.mem_cons_self _ _)).2.2
    have h2 := ih (fun x hx => h x (List.mem_cons_of_mem _ hx))
    unfold connAttempts failedSends at h2 ⊢
    rw [List.map_cons, List.sum_cons, List.countP_cons, h1, h2]
    omega

theorem tick_deadTick (s : State) (k : Nat) (hk : s.client.conn = some k) :
    (tick deadTick s).returned = true ∧ (tick deadTick s).state.client = s.client ∧
    (tick deadTick s).events.countP LoopEvent.isConnCall = 1 := by
  have h := tick_writeFail deadTick s (str "\x7b\x7d") (str "broken pipe") k rfl hk rfl
  have hc := Conn_dialErr { s with closed := k :: s.closed } deadTick.redial
    (str "connection refused") rfl
  rw [hc] at h
  rw [h]
  refine ⟨rfl, rfl, ?_⟩
  cases s.client.Debug <;> rfl

theorem runTicks_deadTicks (n : Nat) (s : State) (k : Nat) (hk : s.client.conn = some k) :
    connAttempts (runTicks (List.replicate n deadTick) s).1 = n := by
  induction n generalizing s with
  | zero => rfl
  | succ n ih =>
    obtain ⟨h1, h2, h3⟩ := tick_deadTick s k hk
    have := ih (tick deadTick s).state (by rw [h2]; exact hk)
    rw [List.replicate_succ, runTicks]
    simp only [h1, if_true]
    unfold connAttempts at this ⊢
    rw [List.map_cons, List.sum_cons, h3, this]
    omega

theorem runTicks_deadTicks_length (n : Nat) (s : State) (k : Nat)
    (hk : s.client.conn = some k) :
    (runTicks (List.replicate n deadTick) s).1.length = n := by
  induction n generalizing s with
  | zero => rfl
  | succ n ih =>
    obtain ⟨h1, h2, _⟩ := tick_deadTick s k hk
    have := ih (tick deadTick s).state (by rw [h2]; exact hk)
    rw [List.replicate_succ, runTicks]
    simp only [h1, if_true, List.length_cons, this]

theorem countP_isFailedWrite_netActions (evs : List LoopEvent) :
    (netActions evs).countP LoopEvent.isFailedWrite = evs.countP LoopEvent.isFailedWrite :=
  countP_filter_of_imp _ _
    (fun a h => by cases a <;> simp_all [LoopEvent.isFailedWrite, LoopEvent.isLog]) evs

/-! ## `strconv.ParseUint` -/

theorem foldl_decimal_ge (cs : List Nat) (n : Nat) :
    n ≤ cs.foldl (fun n c => n * 10 + (c - 48)) n := by
  induction cs generalizing n with
  | nil => exact Nat.le_refl _
  | cons c cs ih =>
    rw [List.foldl_cons]
    exact Nat.le_trans (by omega) (ih _)

theorem parseUintLoop_digit (c : Nat) (cs : List Nat) (n : Nat) (h : 48 ≤ c ∧ c ≤ 57) :
    parseUintLoop (c :: cs) n =
      if n ≥ 18446744073709551615 / 10 + 1 then .error .errRange
      else if (n * 10 % 18446744073709551616 + (c - 48)) % 18446744073709551616 <
            n * 10 % 18446744073709551616 ∨
          (n * 10 % 18446744073709551616 + (c - 48)) % 18446744073709551616 >
            18446744073709551615 then .error .errRange
      else parseUintLoop cs ((n * 10 % 18446744073709551616 + (c - 48)) % 18446744073709551616) := by
  have hd : ¬ (c - 48 ≥ 10) := by omega
  rw [parseUintLoop]
  simp only [h, and_self, if_true, hd, if_false]

theorem parseUintLoop_nondigit (c : Nat) (cs : List Nat) (n : Nat) (h : ¬ (48 ≤ c ∧ c ≤ 57)) :
    parseUintLoop (c :: cs) n = .error .errSyntax := by
  rw [parseUintLoop]
  simp only [h, if_false]
  split
  · rfl
  · rename_i d hd
    split at hd
    · cases hd
      simp
    · cases hd

theorem parseUintLoop_digits (cs : List Nat) (n : Nat) (hn : n < 18446744073709551616)
    (hall : cs.all (fun c => decide (48 ≤ c ∧ c ≤ 57)) = true) :
    parseUintLoop cs n =
      if cs.foldl (fun n c => n * 10 + (c - 48)) n < 18446744073709551616 then
        .ok (cs.foldl (fun n c => n * 10 + (c - 48)) n)
      else .error .errRange := by
  induction cs generalizing n with
  | nil => simp [parseUintLoop, hn]
  | cons c cs ih =>
    rw [List.all_cons, Bool.and_eq_true, decide_eq_true_eq] at hall
    obtain ⟨hc, hall⟩ := hall
    rw [List.foldl_cons, parseUintLoop_digit c cs n hc]
    have hge := foldl_decimal_ge cs (n * 10 + (c - 48))
    by_cases h1 : n ≥ 18446744073709551615 / 10 + 1
    · rw [if_pos h1, if_neg (by omega)]
    · rw [if_neg h1]
      by_cases h2 : n * 10 + (c - 48) < 18446744073709551616
      · have e1 : (n * 10 % 18446744073709551616 + (c - 48)) % 18446744073709551616 =
            n * 10 + (c - 48) := by omega
        have e2 : n * 10 % 18446744073709551616 = n * 10 := by omega
        rw [e1, e2, if_neg (by omega), ih _ h2 hall]
      · rw [if_pos (by omega), if_neg (by omega)]

theorem parseUintLoop_not_digits (cs : List Nat) (n : Nat)
    (hall : cs.all (fun c => decide (48 ≤ c ∧ c ≤ 57)) = false) :
    ∃ e, parseUintLoop cs n = .error e := by
  induction cs generalizing n with
  | nil => simp at hall
  | cons c cs ih =>
    by_cases hc : 48 ≤ c ∧ c ≤ 57
    · rw [List.all_cons] at hall
      simp only [hc, and_self, decide_True, Bool.true_and] at hall
      rw [parseUintLoop_digit c cs n hc]
      split
      · exact ⟨_, rfl⟩
      · split
        · exact ⟨_, rfl⟩
        · exact ih _ hall
    · exact ⟨_, parseUintLoop_nondigit c cs n hc⟩

/-- `strconv.ParseUint(s, 10, 64)` succeeds exactly on the non-empty strings
of decimal digits that denote a number below `2^64`, and returns that number. -/
theorem ParseUint_eq_ok_iff (s : GoString) (v : Nat) :
    ParseUint s = .ok v ↔
      (isDecimal s = true ∧ decimal s < 18446744073709551616 ∧ v = decimal s) := by
  unfold ParseUint isDecimal decimal
  by_cases hs : s = []
  · subst hs; simp
  · rw [if_neg hs]
    have hne : s.isEmpty = false := by cases s <;> simp_all
    rw [hne]
    simp only [Bool.not_false, Bool.true_and]
    cases hall : s.all (fun c => decide (48 ≤ c ∧ c ≤ 57)) with
    | true =>
      rw [parseUintLoop_digits s 0 (by omega) hall]
      split
      · rename_i h
        constructor
        · intro hv; cases hv; exact ⟨rfl, h, rfl⟩
        · rintro ⟨_, _, rfl⟩; rfl
      · rename_i h
        constructor
        · intro hv; cases hv
        · rintro ⟨_, h2, _⟩; exact absurd h2 h
    | false =>
      obtain ⟨e, he⟩ := parseUintLoop_not_digits s 0 hall
      rw [he]
      constructor
      · intro hv; cases hv
      · rintro ⟨h1, _⟩; cases h1

/-! ## `NewClient` -/

theorem NewClient_eq (server username password port interval : GoString) (debug : Bool)
    (net : Dial) :
    NewClient server username password port interval debug net =
      (match (Conn ⟨newClientConfig server username password port interval debug, [], 0⟩
          net).ret with
        | .nil => ⟨some (Conn ⟨newClientConfig server username password port interval debug,
            [], 0⟩ net).state.client, .nil,
            Conn ⟨newClientConfig server username password port interval debug, [], 0⟩ net⟩
        | ret => ⟨none, ret,
            Conn ⟨newClientConfig server username password port interval debug, [], 0⟩ net⟩) := by
  have hcfg : (let c : Client :=
      { Server := DefaultServer, Username := DefaultUsername, Password := DefaultPassword,
        Port := DefaultPort, Interval := DefaultInterval, Protocol := [], Debug := false,
        conn := none, baseInfo := ⟨0, 0⟩ }
      let c := if server ≠ [] then { c with Server := server } else c
      let c := if username ≠ [] then { c with Username := username } else c
      let c := if password ≠ [] then { c with Password := password } else c
      let c := if port ≠ [] then { c with Port := port } else c
      let c := match ParseUint interval with
        | .ok i => if i ≠ 0 then { c with Interval := i } else c
        | .error _ => c
      let c := { c with Debug := debug }
      let c := { c with Protocol := DefaultProtocol }
      c) = newClientConfig server username password port interval debug := by
    unfold newClientConfig
    by_cases h1 : server = [] <;> by_cases h2 : username = [] <;> by_cases h3 : password = [] <;>
      by_cases h4 : port = [] <;> cases h5 : ParseUint interval <;>
      simp [h1, h2, h3, h4] <;> split <;> simp_all
  unfold NewClient
  simp only at hcfg ⊢
  rw [hcfg]

theorem newClientConfig_Interval (server username password port interval : GoString)
    (debug : Bool) :
    (newClientConfig server username password port interval debug).Interval =
      if isDecimal interval = true ∧ decimal interval < 18446744073709551616 ∧
          decimal interval ≠ 0 then decimal interval else 3 := by
  unfold newClientConfig
  simp only
  cases hP : ParseUint interval with
  | ok i =>
    obtain ⟨h1, h2, h3⟩ := (ParseUint_eq_ok_iff interval i).1 hP
    subst h3
    by_cases h0 : decimal interval = 0
    · simp [h0, DefaultInterval]
    · simp [h0, h1, h2]
  | error e =>
    have : ¬ (isDecimal interval = true ∧ decimal interval < 18446744073709551616) := by
      intro h
      have := (ParseUint_eq_ok_iff interval (decimal interval)).2 ⟨h.1, h.2, rfl⟩
      rw [hP] at this
      cases this
    simp only [DefaultInterval]
    rw [if_neg (fun h => this ⟨h.1, h.2.1⟩)]

theorem int64_of_range (x : Int) (h1 : -9223372036854775808 ≤ x)
    (h2 : x < 9223372036854775808) : int64 x = x := by
  unfold int64
  omega

/-! ## The handshake: address family, success terminal, read failure -/

/-- C1, counterexample: a handshake that ends on the banner
`You are connecting via: IPv4` (the buffer holds the banner, no challenge, and
the substring `IPv4`) leaves 6 in `baseInfo.checkIp`, not 4. -/
theorem Conn_checkIp_ipv4_banner_gives_6 :
    (Conn freshState ipv4Peer).ret = .nil ∧
    Contains (Conn freshState ipv4Peer).recvData banner = true ∧
    Contains (Conn freshState ipv4Peer).recvData challenge = false ∧
    Contains (Conn freshState ipv4Peer).recvData ipv4Mark = true ∧
    (Conn freshState ipv4Peer).state.client.baseInfo.checkIp = 6 ∧
    (Conn freshState ipv4Peer).state.client.baseInfo.checkIp ≠ 4 := by
  decide

/-- C1, amended: whenever `Conn` returns nil, the receive buffer holds the
banner and no challenge, and `baseInfo.checkIp` is 6 if the buffer contains
`IPv4` and 4 if it does not. -/
theorem Conn_checkIp_on_banner (s : State) (net : Dial) (h : (Conn s net).ret = .nil) :
    Contains (Conn s net).recvData banner = true ∧
    Contains (Conn s net).recvData challenge = false ∧
    (Conn s net).state.client.baseInfo.checkIp =
      if Contains (Conn s net).recvData ipv4Mark = true then 6 else 4 := by
  cases hd : net.dialErr with
  | some e => rw [Conn_dialErr s net e hd] at h; cases h
  | none =>
    have hr : (connLoop s.client net.steps (List.replicate 128 0)).ret = .nil := by
      rw [← Conn_ret s net hd]; exact h
    obtain ⟨h1, h2, h3, _⟩ := connLoop_nil s.client net.steps _ hr
    rw [Conn_nil s net hd hr]
    refine ⟨h2, h1, ?_⟩
    simp only [h3]

/-- C1, amended, at a peer that sends an IPv6 banner after one challenge:
`checkIp` is 4. -/
theorem Conn_checkIp_on_banner_witness :
    (Conn freshState ipv6Peer).ret = .nil ∧
    (Conn freshState ipv6Peer).state.client.baseInfo.checkIp = 4 ∧
    (Contains (Conn freshState ipv6Peer).recvData banner = true ∧
      Contains (Conn freshState ipv6Peer).recvData challenge = false ∧
      (Conn freshState ipv6Peer).state.client.baseInfo.checkIp =
        if Contains (Conn freshState ipv6Peer).recvData ipv4Mark = true then 6 else 4) :=
  ⟨by decide, by decide, Conn_checkIp_on_banner freshState ipv6Peer (by decide)⟩

/-- C3: in every run of `Conn` that returns, the result is nil exactly when
the dial succeeded, no event of the run reported an error, and the receive
buffer (the initial 128 zero bytes after the reads of the run) holds the
banner and no challenge; every other returning run yields an error. -/
theorem Conn_nil_only_on_banner (s : State) (net : Dial)
    (hterm : (Conn s net).ret ≠ .blocked) :
    ((Conn s net).ret = .nil ↔
      (net.dialErr = none ∧ (∀ ev ∈ (Conn s net).trace, ev.failed = false) ∧
        Contains (Conn s net).recvData banner = true ∧
        Contains (Conn s net).recvData challenge = false)) ∧
    ((Conn s net).ret ≠ .nil → ∃ msg, (Conn s net).ret = .err msg) ∧
    (Conn s net).recvData =
      bufferAfter (List.replicate 128 0) (connReads (Conn s net).trace) := by
  cases hd : net.dialErr with
  | some e =>
    rw [Conn_dialErr s net e hd]
    refine ⟨?_, fun _ => ⟨_, rfl⟩, rfl⟩
    constructor
    · intro h; cases h
    · intro h; cases h.1
  | none =>
    by_cases hr : (connLoop s.client net.steps (List.replicate 128 0)).ret = .nil
    · obtain ⟨h1, h2, _, h4⟩ := connLoop_nil s.client net.steps _ hr
      have hb := connLoop_recvData s.client net.steps (List.replicate 128 0)
      rw [Conn_nil s net hd hr]
      refine ⟨⟨fun _ => ⟨rfl, ?_, h2, h1⟩, fun _ => rfl⟩, fun h => absurd rfl h, ?_⟩
      · intro ev hev
        simp only [List.mem_cons, List.mem_append, List.not_mem_nil, or_false] at hev
        rcases hev with (rfl | hev) | rfl
        · rfl
        · exact h4 ev hev
        · rfl
      · simp only []
        rw [hb]
        congr 1
        generalize (connLoop s.client net.steps (List.replicate 128 0)).trace = tr
        induction tr with
        | nil => rfl
        | cons ev evs ih => cases ev <;> simp [connReads, ih]
    · have hret := Conn_ret s net hd
      have hb := connLoop_recvData s.client net.steps (List.replicate 128 0)
      have hne : (Conn s net).ret ≠ .nil := by rw [hret]; exact hr
      rw [hret] at hterm
      obtain ⟨msg, hmsg⟩ : ∃ msg, (connLoop s.client net.steps (List.replicate 128 0)).ret =
          .err msg := by
        cases hc : (connLoop s.client net.steps (List.replicate 128 0)).ret with
        | blocked => exact absurd hc hterm
        | nil => exact absurd hc hr
        | err msg => exact ⟨msg, rfl⟩
      obtain ⟨ev, hev, hf⟩ := connLoop_err_failed s.client net.steps _ msg hmsg
      rw [Conn_not_nil s net hd hr]
      refine ⟨⟨fun h => absurd h hr, fun h => ?_⟩, fun _ => ⟨msg, hmsg⟩, hb⟩
      have := h.2.1 ev (List.mem_cons_of_mem _ hev)
      rw [hf] at this
      cases this

/-- C3 at a handshake of one challenge and a banner: the run returns nil,
and the conditions of the success terminal hold. -/
theorem Conn_nil_only_on_banner_witness :
    (Conn freshState ipv6Peer).ret ≠ .blocked ∧ (Conn freshState ipv6Peer).ret = .nil ∧
    (((Conn freshState ipv6Peer).ret = .nil ↔
      (ipv6Peer.dialErr = none ∧ (∀ ev ∈ (Conn freshState ipv6Peer).trace, ev.failed = false) ∧
        Contains (Conn freshState ipv6Peer).recvData banner = true ∧
        Contains (Conn freshState ipv6Peer).recvData challenge = false)) ∧
    ((Conn freshState ipv6Peer).ret ≠ .nil → ∃ msg, (Conn freshState ipv6Peer).ret = .err msg) ∧
    (Conn freshState ipv6Peer).recvData =
      bufferAfter (List.replicate 128 0) (connReads (Conn freshState ipv6Peer).trace)) :=
  ⟨by decide, by decide, Conn_nil_only_on_banner freshState ipv6Peer (by decide)⟩

/-- C9: if a `Read` of a run of `Conn` returns an error `e`, the dial had
succeeded, that read is the last event of the run, and `Conn` returns an error
whose text contains the text of `e` and the whole 128-byte receive buffer as
the reads of the run left it. -/
theorem Conn_read_error_carries_buffer (s : State) (net : Dial) (bytes e : GoString)
    (h : ConnEvent.read bytes (some e) ∈ (Conn s net).trace) :
    net.dialErr = none ∧
    (Conn s net).trace.getLast? = some (.read bytes (some e)) ∧
    (Conn s net).ret = .err (readErrorText e (Conn s net).recvData) ∧
    Contains (readErrorText e (Conn s net).recvData) e = true ∧
    Contains (readErrorText e (Conn s net).recvData) (Conn s net).recvData = true ∧
    (Conn s net).recvData.length = 128 ∧
    (Conn s net).recvData =
      bufferAfter (List.replicate 128 0) (connReads (Conn s net).trace) ∧
    (Conn s net).state.client = s.client := by
  cases hd : net.dialErr with
  | some e1 => rw [Conn_dialErr s net e1 hd] at h; simp at h
  | none =>
    by_cases hr : (connLoop s.client net.steps (List.replicate 128 0)).ret = .nil
    · exfalso
      obtain ⟨_, _, _, h4⟩ := connLoop_nil s.client net.steps _ hr
      rw [Conn_nil s net hd hr] at h
      simp only [List.mem_cons, List.mem_append, List.not_mem_nil, or_false] at h
      rcases h with (h | h) | h
      · cases h
      · have := h4 _ h
        cases this
      · cases h
    · have hb := connLoop_recvData s.client net.steps (List.replicate 128 0)
      have hl := connLoop_recvData_length s.client net.steps (List.replicate 128 0)
      rw [Conn_not_nil s net hd hr] at h ⊢
      simp only [List.mem_cons] at h
      rcases h with h | h
      · cases h
      · obtain ⟨h1, h2⟩ := connLoop_read_error s.client net.steps _ bytes e h
        have hne := connLoop_trace_ne_nil s.client net.steps (List.replicate 128 0)
        refine ⟨rfl, ?_, h1, ?_, ?_, ?_, hb, rfl⟩
        · obtain ⟨x, xs, hx⟩ := List.exists_cons_of_ne_nil hne
          simp only [hx] at h2 ⊢
          simpa using h2
        · exact readErrorText_contains_err _ _
        · exact readErrorText_contains_buf _ _
        · simpa using hl

/-- C9 at a peer that sends one challenge and then lets the read time out. -/
theorem Conn_read_error_carries_buffer_witness :
    ConnEvent.read [] (some (str "i/o timeout")) ∈ (Conn freshState silentPeer).trace ∧
    (silentPeer.dialErr = none ∧
    (Conn freshState silentPeer).trace.getLast? = some (.read [] (some (str "i/o timeout"))) ∧
    (Conn freshState silentPeer).ret =
      .err (readErrorText (str "i/o timeout") (Conn freshState silentPeer).recvData) ∧
    Contains (readErrorText (str "i/o timeout") (Conn freshState silentPeer).recvData)
      (str "i/o timeout") = true ∧
    Contains (readErrorText (str "i/o timeout") (Conn freshState silentPeer).recvData)
      (Conn freshState silentPeer).recvData = true ∧
    (Conn freshState silentPeer).recvData.length = 128 ∧
    (Conn freshState silentPeer).recvData =
      bufferAfter (List.replicate 128 0) (connReads (Conn freshState silentPeer).trace) ∧
    (Conn freshState silentPeer).state.client = freshState.client) :=
  ⟨by decide, Conn_read_error_carries_buffer freshState silentPeer [] (str "i/o timeout")
    (by decide)⟩
/-! ## The handshake: credential lines -/

/-- C2, counterexample: with no challenge message and a final message of at
most 128 bytes that contains `You are connecting via` (and the challenge text
as well), all writes succeeding, `Conn` writes the credential line once
instead of zero times and has not returned nil when the messages are used
up. -/
theorem Conn_credentials_mixed_final_message :
    Contains mixedMessage banner = true ∧ mixedMessage.length ≤ 128 ∧
    connWrites (Conn freshState (peerOf [] mixedMessage)).trace =
      [credentials DefaultUsername DefaultPassword] ∧
    connWrites (Conn freshState (peerOf [] mixedMessage)).trace ≠
      List.replicate 0 (credentials DefaultUsername DefaultPassword) ∧
    (Conn freshState (peerOf [] mixedMessage)).ret ≠ .nil := by
  decide

/-- C2, amended: for every list of challenge messages, each containing
`Authentication required`, followed by one final message of at most 128 bytes
that contains `You are connecting via`, does not contain
`Authentication required` and is at least as long as every challenge message,
each message delivered by one successful `Read` and all writes succeeding,
`Conn` writes exactly as many times as there are challenge messages, each
write being `<username>:<password>\n`, and returns nil. -/
theorem Conn_credentials_count (s : State) (challenges : List GoString) (final : GoString)
    (hch : ∀ m ∈ challenges, Contains m challenge = true ∧ m.length ≤ final.length)
    (hlen : final.length ≤ 128)
    (hban : Contains final banner = true) (hno : Contains final challenge = false) :
    connWrites (Conn s (peerOf challenges final)).trace =
      List.replicate challenges.length
        (s.client.Username ++ str ":" ++ s.client.Password ++ str "\n") ∧
    (Conn s (peerOf challenges final)).ret = .nil := by
  obtain ⟨h1, h2⟩ := connLoop_challenges s.client final hlen hban hno challenges hch
    (List.replicate 128 0) (by simp) (ZeroFrom_replicate _ _)
  rw [Conn_nil s (peerOf challenges final) rfl h1]
  refine ⟨?_, rfl⟩
  have hw : ∀ (tr : List ConnEvent) (a l : GoString),
      connWrites (ConnEvent.dial a none :: tr ++ [ConnEvent.log l]) = connWrites tr := by
    intro tr a l
    rw [connWrites_append]
    simp [connWrites]
  exact (hw _ _ _).trans h2

/-- C2, amended, at two challenges followed by an IPv4 banner. -/
theorem Conn_credentials_count_witness :
    connWrites (Conn freshState (peerOf [str "Authentication required\n",
      str "Authentication required\n"] (str "You are connecting via: IPv4\n"))).trace =
      List.replicate 2 (freshState.client.Username ++ str ":" ++ freshState.client.Password ++
        str "\n") ∧
    (Conn freshState (peerOf [str "Authentication required\n",
      str "Authentication required\n"] (str "You are connecting via: IPv4\n"))).ret = .nil :=
  Conn_credentials_count freshState
    [str "Authentication required\n", str "Authentication required\n"]
    (str "You are connecting via: IPv4\n") (by decide) (by decide) (by decide) (by decide)

/-- A challenge that starts 40 bytes into its message stays in the buffer
behind a shorter banner: the loop answers it a second time and reads on. -/
theorem Conn_stale_challenge_is_answered_again :
    connWrites (Conn freshState (peerOf [List.replicate 40 32 ++ str "Authentication required"]
      (str "You are connecting via: IPv4\n"))).trace =
      List.replicate 2 (credentials DefaultUsername DefaultPassword) ∧
    (Conn freshState (peerOf [List.replicate 40 32 ++ str "Authentication required"]
      (str "You are connecting via: IPv4\n"))).ret = .blocked := by
  decide
/-! ## The reporting loop: frame, reconnect policy, skipped cycles -/

/-- C4: for a client that holds connection `k`, a tick whose `json.Marshal`
succeeds with body `J` performs exactly one `Write` of the loop, on `k`, of
the bytes `update `, `J` and a newline; and along every run of `startRun` each
tick with body `J` performs exactly one `Write`, of exactly these bytes,
whatever the earlier ticks wrote. -/
theorem startRun_frame (ticks : List Tick) (s : State) (k : Nat)
    (hk : s.client.conn = some k) :
    (∀ t J, t.marshal = .ok J → ∃ err,
      (tick t s).events.filter LoopEvent.isWrite =
        [.write k (str "update " ++ J ++ str "\n") err]) ∧
    (∀ p ∈ List.zip ticks (startRun ticks s).1, ∀ J, p.1.marshal = .ok J →
      ∃ k1 err, p.2.filter LoopEvent.isWrite =
        [.write k1 (str "update " ++ J ++ str "\n") err]) := by
  have hstep : ∀ (t : Tick) (s : State), s.client.conn ≠ none →
      (∀ J, t.marshal = .ok J → ∃ k1 err, (tick t s).events.filter LoopEvent.isWrite =
        [.write k1 (str "update " ++ J ++ str "\n") err] ∧ s.client.conn = some k1) ∧
      (tick t s).state.client.conn ≠ none := by
    intro t s hs
    rcases tick_cases t s with ⟨e, hm, hst, _, _⟩ | ⟨J, _, hc, _⟩ | ⟨J, k1, hm, hc, _, hst, _, hn⟩ |
      ⟨J, k1, e, hm, hc, _, hst, _, hn⟩
    · refine ⟨fun J hJ => ?_, by rw [hst]; exact hs⟩
      rw [hm] at hJ; cases hJ
    · exact absurd hc hs
    · refine ⟨fun J1 hJ => ⟨k1, none, ?_, hc⟩, by rw [hst]; exact hs⟩
      rw [hm] at hJ; cases hJ
      rw [← filter_isWrite_netActions, hn]; rfl
    · refine ⟨fun J1 hJ => ⟨k1, some e, ?_, hc⟩, ?_⟩
      · rw [hm] at hJ; cases hJ
        rw [← filter_isWrite_netActions, hn]; rfl
      · rw [hst]
        exact Conn_conn_ne_none _ _ (by simpa using hs)
  constructor
  · intro t J hJ
    obtain ⟨k1, err, h1, h2⟩ := (hstep t s (by rw [hk]; simp)).1 J hJ
    rw [hk] at h2
    cases h2
    exact ⟨err, h1⟩
  · unfold startRun
    split
    · intro p hp; simp at hp
    · intro p hp J hJ
      have := runTicks_forall
        (fun t evs => ∀ J, t.marshal = .ok J → ∃ k1 err, evs.filter LoopEvent.isWrite =
          [.write k1 (str "update " ++ J ++ str "\n") err])
        (fun s => s.client.conn ≠ none)
        (fun t s hs => ⟨fun J hJ => by
          obtain ⟨k1, err, h1, _⟩ := (hstep t s hs).1 J hJ
          exact ⟨k1, err, h1⟩, (hstep t s hs).2⟩)
        ticks s (by show s.client.conn ≠ none; rw [hk]; simp) p hp
      exact this J hJ

/-- C4 at a connected default client and two ticks, the first of which fails
to send and reconnects. -/
theorem startRun_frame_witness :
    connectedState.client.conn = some 0 ∧
    (startRun [deadTick, liveTick] connectedState).1.length = 2 ∧
    ((∀ t J, t.marshal = .ok J → ∃ err,
      (tick t connectedState).events.filter LoopEvent.isWrite =
        [.write 0 (str "update " ++ J ++ str "\n") err]) ∧
    (∀ p ∈ List.zip [deadTick, liveTick] (startRun [deadTick, liveTick] connectedState).1,
      ∀ J, p.1.marshal = .ok J →
      ∃ k1 err, p.2.filter LoopEvent.isWrite =
        [.write k1 (str "update " ++ J ++ str "\n") err])) :=
  ⟨by decide, by decide, startRun_frame [deadTick, liveTick] connectedState 0 (by decide)⟩

/-- C8: a tick whose `json.Marshal` returns an error performs no
`SetWriteDeadline`, `Write`, `Close` or `Conn` (its events are log lines
only), leaves the whole state, the connection handle included, unchanged, and
the loop goes on with the next tick from that same state. -/
theorem tick_marshal_error_skips (t : Tick) (ts : List Tick) (s : State) (e : GoString)
    (h : t.marshal = .error e) :
    netActions (tick t s).events = [] ∧
    (∀ ev ∈ (tick t s).events, ∃ msg, ev = .log msg) ∧
    (tick t s).state = s ∧
    (tick t s).state.client.conn = s.client.conn ∧
    (tick t s).returned = true ∧
    runTicks (t :: ts) s = ((tick t s).events :: (runTicks ts s).1, (runTicks ts s).2) := by
  have ht := tick_marshalErr t s e h
  refine ⟨?_, ?_, ?_, ?_, ?_, ?_⟩
  · rw [ht, netActions_dbg]; rfl
  · rw [ht]
    intro ev hev
    cases hD : s.client.Debug <;> simp [hD] at hev
    · exact ⟨_, hev⟩
    · rcases hev with rfl | rfl <;> exact ⟨_, rfl⟩
  · rw [ht]
  · rw [ht]
  · rw [ht]
  · rw [runTicks, ht]
    simp

/-- C8 at a tick whose snapshot holds a NaN, followed by a tick that sends. -/
theorem tick_marshal_error_skips_witness :
    badTick.marshal = .error (str "json: unsupported value: NaN") ∧
    (netActions (tick badTick connectedState).events = [] ∧
    (∀ ev ∈ (tick badTick connectedState).events, ∃ msg, ev = .log msg) ∧
    (tick badTick connectedState).state = connectedState ∧
    (tick badTick connectedState).state.client.conn = connectedState.client.conn ∧
    (tick badTick connectedState).returned = true ∧
    runTicks (badTick :: [liveTick]) connectedState =
      ((tick badTick connectedState).events :: (runTicks [liveTick] connectedState).1,
        (runTicks [liveTick] connectedState).2)) :=
  ⟨rfl, tick_marshal_error_skips badTick [liveTick] connectedState
    (str "json: unsupported value: NaN") rfl⟩

/-- C6: along every run of `startRun`, a tick whose `Write` fails does, after
`SetWriteDeadline` and that `Write`, exactly one `Close` of the same
connection and exactly one call of `Conn`, whatever that call returns, and
nothing more; a tick whose `Write` succeeds does no `Close` and no `Conn`;
the number of `Conn` calls of the run equals the number of its ticks whose
`Write` failed; and every number of `Conn` calls is reached by some run. -/
theorem startRun_reconnect_policy (ticks : List Tick) (s : State) :
    (∀ evs ∈ (startRun ticks s).1,
      (∀ k d e, LoopEvent.write k d (some e) ∈ evs →
        ∃ tr ret, netActions evs =
          [.setWriteDeadline k, .write k d (some e), .close k, .connCall tr ret]) ∧
      (∀ k d, LoopEvent.write k d none ∈ evs →
        netActions evs = [.setWriteDeadline k, .write k d none])) ∧
    connAttempts (startRun ticks s).1 = failedSends (startRun ticks s).1 ∧
    (∀ n, ∃ ticks1 s1, ticks1.length = n ∧ (startRun ticks1 s1).1.length = n ∧
      connAttempts (startRun ticks1 s1).1 = n) := by
  refine ⟨?_, ?_, ?_⟩
  · intro evs hevs
    unfold startRun at hevs
    split at hevs
    · simp at hevs
    · have := runTicks_policy ticks s evs hevs
      exact ⟨this.1, this.2.1⟩
  · unfold startRun
    split
    · rfl
    · exact connAttempts_eq_failedSends _ (runTicks_policy ticks s)
  · intro n
    refine ⟨List.replicate n deadTick, connectedState, by simp, ?_, ?_⟩
    · have hp : ¬ tickPeriod connectedState.client.Interval ≤ 0 := by decide
      unfold startRun
      rw [if_neg hp]
      exact runTicks_deadTicks_length n connectedState 0 (by decide)
    · have hp : ¬ tickPeriod connectedState.client.Interval ≤ 0 := by decide
      unfold startRun
      rw [if_neg hp]
      exact runTicks_deadTicks n connectedState 0 (by decide)

/-- C7: a call of `Conn` that does not return nil (dial error, read error,
credential-write error) leaves the client, its `conn` handle and
`baseInfo.checkIp` included, unchanged; so after a tick whose send fails and
whose reconnect fails the client still holds the connection that tick closed;
and if a `Write` on a closed connection returns an error, the next tick's send
fails on that connection and is followed by one `Close` and one call of
`Conn`. -/
theorem failed_reconnect_keeps_closed_conn (s : State) (t1 t2 : Tick) (k : Nat)
    (J1 e1 msg J2 e2 : GoString)
    (hk : s.client.conn = some k) (hm1 : t1.marshal = .ok J1)
    (hw1 : t1.write (decide (k ∈ s.closed)) = some e1)
    (hc1 : (Conn { s with closed := k :: s.closed } t1.redial).ret = .err msg)
    (hm2 : t2.marshal = .ok J2) (hclosed : t2.write true = some e2) :
    (∀ (s0 : State) (net : Dial), (Conn s0 net).ret ≠ .nil →
      (Conn s0 net).state.client = s0.client ∧
      (Conn s0 net).state.client.conn = s0.client.conn ∧
      (Conn s0 net).state.client.baseInfo.checkIp = s0.client.baseInfo.checkIp ∧
      (Conn s0 net).state.closed = s0.closed) ∧
    (tick t1 s).returned = true ∧
    (tick t1 s).state.client.conn = some k ∧
    (tick t1 s).state.client.baseInfo.checkIp = s.client.baseInfo.checkIp ∧
    k ∈ (tick t1 s).state.closed ∧
    (∃ tr ret, netActions (tick t2 (tick t1 s).state).events =
      [.setWriteDeadline k, .write k (str "update " ++ J2 ++ str "\n") (some e2), .close k,
        .connCall tr ret]) ∧
    (∃ evs2, (runTicks [t1, t2] s).1 = [(tick t1 s).events, evs2] ∧
      evs2.countP LoopEvent.isFailedWrite = 1 ∧ evs2.countP LoopEvent.isConnCall = 1) := by
  have hconn : ∀ (s0 : State) (net : Dial), (Conn s0 net).ret ≠ .nil →
      (Conn s0 net).state.client = s0.client := Conn_client_of_ne_nil
  have hne : (Conn { s with closed := k :: s.closed } t1.redial).ret ≠ .nil := by
    rw [hc1]; exact fun h => by cases h
  have ht1 := tick_writeFail t1 s J1 e1 k hm1 hk hw1
  have hst : (tick t1 s).state = (Conn { s with closed := k :: s.closed } t1.redial).state := by
    rw [ht1]
  have hcl : (tick t1 s).state.client = s.client := by rw [hst]; exact hconn _ _ hne
  have hk2 : (tick t1 s).state.client.conn = some k := by rw [hcl]; exact hk
  have hmem : k ∈ (tick t1 s).state.closed := by
    rw [hst, Conn_closed]; exact List.mem_cons_self _ _
  have hret : (tick t1 s).returned = true := by rw [ht1, hc1]; rfl
  have hw2 : t2.write (decide (k ∈ (tick t1 s).state.closed)) = some e2 := by
    rw [decide_eq_true hmem]; exact hclosed
  have ht2 := tick_writeFail t2 (tick t1 s).state J2 e2 k hm2 hk2 hw2
  have hn2 : netActions (tick t2 (tick t1 s).state).events =
      [.setWriteDeadline k, .write k (str "update " ++ J2 ++ str "\n") (some e2), .close k,
        .connCall (Conn { (tick t1 s).state with closed := k :: (tick t1 s).state.closed }
            t2.redial).trace
          (Conn { (tick t1 s).state with closed := k :: (tick t1 s).state.closed }
            t2.redial).ret] := by
    rcases tick_cases t2 (tick t1 s).state with ⟨e, hm, _⟩ | ⟨J, _, hc, _⟩ |
      ⟨J, k1, _, hc, hw, _⟩ | ⟨J, k1, e, hm, hc, hw, _, _, hn⟩
    · rw [hm2] at hm; cases hm
    · rw [hk2] at hc; cases hc
    · rw [hk2] at hc; cases hc; rw [hw2] at hw; cases hw
    · rw [hk2] at hc; cases hc
      rw [hm2] at hm; cases hm
      rw [hw2] at hw; cases hw
      exact hn
  refine ⟨fun s0 net h => ?_, hret, hk2, by rw [hcl], hmem, ⟨_, _, hn2⟩, ?_⟩
  · have := hconn s0 net h
    exact ⟨this, by rw [this], by rw [this], Conn_closed s0 net⟩
  · refine ⟨(tick t2 (tick t1 s).state).events, ?_, ?_, ?_⟩
    · rw [runTicks]
      simp only [hret, if_true]
      rw [runTicks]
      by_cases hr2 : (tick t2 (tick t1 s).state).returned = true
      · simp [hr2, runTicks]
      · simp [hr2]
    · rw [← countP_isFailedWrite_netActions, hn2]; rfl
    · rw [← countP_isConnCall_netActions, hn2]; rfl

/-- C7 at a connected default client: the first tick cannot send and cannot
dial, the second tick finds the connection closed. -/
theorem failed_reconnect_keeps_closed_conn_witness :
    (tick deadTick connectedState).state.client.conn = some 0 ∧
    0 ∈ (tick deadTick connectedState).state.closed ∧
    (∃ tr ret, netActions (tick liveTick (tick deadTick connectedState).state).events =
      [.setWriteDeadline 0,
        .write 0 (str "update " ++ str "\x7b\x7d" ++ str "\n")
          (some (str "use of closed network connection")),
        .close 0, .connCall tr ret]) :=
  have h := failed_reconnect_keeps_closed_conn connectedState deadTick liveTick 0
    (str "\x7b\x7d") (str "broken pipe") (str "[连接]建立失败：" ++ str "connection refused")
    (str "\x7b\x7d") (str "use of closed network connection")
    (by decide) rfl rfl (by decide) rfl rfl
  ⟨h.2.2.1, h.2.2.2.2.1, h.2.2.2.2.2.1⟩
/-! ## Configuration and tick period -/

/-- C5: when the handshake of `NewClient` succeeds, the returned client has
`Server`, `Username`, `Password` and `Port` equal to the argument if it is
non-empty and to `127.0.0.1`, `s01`, `USER_DEFAULT_PASSWORD`, `35601` if it is
empty; `Protocol` is `ip4`; `Debug` is the argument; and `Interval` is the
number the interval string denotes if that string is a non-empty run of
decimal digits denoting a number below `2^64` other than 0, and 3 otherwise. -/
theorem NewClient_defaults (server username password port interval : GoString) (debug : Bool)
    (net : Dial) (c : Client)
    (h : (NewClient server username password port interval debug net).client = some c) :
    c.Server = (if server = [] then str "127.0.0.1" else server) ∧
    c.Username = (if username = [] then str "s01" else username) ∧
    c.Password = (if password = [] then str "USER_DEFAULT_PASSWORD" else password) ∧
    c.Port = (if port = [] then str "35601" else port) ∧
    c.Protocol = str "ip4" ∧
    c.Debug = debug ∧
    c.Interval = (if isDecimal interval = true ∧ decimal interval < 18446744073709551616 ∧
      decimal interval ≠ 0 then decimal interval else 3) := by
  rw [NewClient_eq] at h
  generalize hcfg : newClientConfig server username password port interval debug = cfg at h
  have hI := newClientConfig_Interval server username password port interval debug
  rw [hcfg] at hI
  by_cases hn : (Conn ⟨cfg, [], 0⟩ net).ret = .nil
  · simp only [hn] at h
    cases hd : net.dialErr with
    | some e => rw [Conn_dialErr _ net e hd] at hn; cases hn
    | none =>
      have hr : (connLoop cfg net.steps (List.replicate 128 0)).ret = .nil := by
        rw [← Conn_ret ⟨cfg, [], 0⟩ net hd]; exact hn
      obtain ⟨_, _, h3, _⟩ := connLoop_nil cfg net.steps _ hr
      rw [Conn_nil ⟨cfg, [], 0⟩ net hd hr] at h
      simp only [Option.some.injEq] at h
      subst h
      simp only [h3]
      subst hcfg
      exact ⟨rfl, rfl, rfl, rfl, rfl, rfl, hI⟩
  · exfalso
    cases hret : (Conn ⟨cfg, [], 0⟩ net).ret with
    | nil => exact hn hret
    | blocked => simp only [hret] at h; cases h
    | err msg => simp only [hret] at h; cases h

/-- C5 at a call that passes only a host and the interval `007`. -/
theorem NewClient_defaults_witness :
    (NewClient (str "example.org") [] [] [] (str "007") true ipv6Peer).client =
      some ⟨str "example.org", str "35601", str "s01", str "USER_DEFAULT_PASSWORD", 7,
        str "ip4", true, some 0, ⟨4, 0⟩⟩ ∧
    ((⟨str "example.org", str "35601", str "s01", str "USER_DEFAULT_PASSWORD", 7,
        str "ip4", true, some 0, ⟨4, 0⟩⟩ : Client).Interval =
      (if isDecimal (str "007") = true ∧ decimal (str "007") < 18446744073709551616 ∧
        decimal (str "007") ≠ 0 then decimal (str "007") else 3)) :=
  ⟨by decide, (NewClient_defaults (str "example.org") [] [] [] (str "007") true ipv6Peer
    ⟨str "example.org", str "35601", str "s01", str "USER_DEFAULT_PASSWORD", 7,
      str "ip4", true, some 0, ⟨4, 0⟩⟩ (by decide)).2.2.2.2.2.2⟩

/-- C10, counterexample: `NewClient` accepts the interval `9223372037`, a
non-zero unsigned 64-bit integer, and the duration `startRun` passes to the
ticker for it is negative and differs from `9223372037 * 10^9`. -/
theorem tickPeriod_wraps_at_9223372037 :
    Option.map Client.Interval
      (NewClient [] [] [] [] (str "9223372037") false ipv4Peer).client = some 9223372037 ∧
    9223372037 ≠ 0 ∧ 9223372037 < 18446744073709551616 ∧
    tickPeriod 9223372037 = -9223372036709551616 ∧
    ¬ (0 < tickPeriod 9223372037) ∧
    tickPeriod 9223372037 ≠ 9223372037 * 1000000000 := by
  decide

/-- C10, amended: for every interval from 1 to 9223372036 (the values whose
product with `10^9` is below `2^63`), the duration `startRun` passes to the
ticker is strictly positive and equals `Interval * 10^9` nanoseconds. -/
theorem tickPeriod_eq (interval : Nat) (h0 : 0 < interval) (h : interval ≤ 9223372036) :
    0 < tickPeriod interval ∧ tickPeriod interval = (interval : Int) * 1000000000 := by
  have h1 : int64 (interval : Int) = interval :=
    int64_of_range _ (by omega) (by omega)
  have h2 : int64 (1000000000 * (interval : Int)) = 1000000000 * (interval : Int) :=
    int64_of_range _ (by omega) (by omega)
  unfold tickPeriod Second
  rw [h1, h2]
  omega

/-- C10, amended, at the default interval of 3 seconds. -/
theorem tickPeriod_eq_witness :
    0 < tickPeriod 3 ∧ tickPeriod 3 = ((3 : Nat) : Int) * 1000000000 :=
  tickPeriod_eq 3 (by decide) (by decide)

end ServerStatus
